import Mathlib

/-!
Verification of the core logic of `hadi_poller_telegram.py`.

The Python source is shallowly embedded: pure helpers become Lean
functions on `Nat` / `String` / `List`; the effectful poll loop becomes a
pure state-transition function whose external interactions (upstream
responses, Telegram delivery outcomes, the iteration order of the Python
`set`, wall-clock readings and whole-cycle exceptions) are supplied as
explicit oracle parameters.  Machine 32-bit words are `Nat` reduced
`% 2^32`.  Python `set` objects are modelled as duplicate-free lists in
insertion order together with an enumeration oracle `enum` standing for
CPython's unspecified `list(set)` order (the spec itself flags that order
as implementation-defined).
-/

/-! ### 32-bit word helpers (for the SHA-256 model of `hashlib.sha256`) -/

def M32 : Nat := 4294967296

def add32 (a b : Nat) : Nat := (a + b) % M32

def rotr32 (n a : Nat) : Nat := ((a >>> n) ||| (a <<< (32 - n))) % M32

def shr32 (n a : Nat) : Nat := a >>> n

def xor3 (a b c : Nat) : Nat := Nat.xor (Nat.xor a b) c

def bsig0 (x : Nat) : Nat := xor3 (rotr32 2 x) (rotr32 13 x) (rotr32 22 x)

def bsig1 (x : Nat) : Nat := xor3 (rotr32 6 x) (rotr32 11 x) (rotr32 25 x)

def ssig0 (x : Nat) : Nat := xor3 (rotr32 7 x) (rotr32 18 x) (shr32 3 x)

def ssig1 (x : Nat) : Nat := xor3 (rotr32 17 x) (rotr32 19 x) (shr32 10 x)

/-- The 64 SHA-256 round constants (FIPS 180-4). -/
def sha256K : List Nat :=
  [1116352408, 1899447441, 3049323471, 3921009573, 961987163, 1508970993,
   2453635748, 2870763221, 3624381080, 310598401, 607225278, 1426881987,
   1925078388, 2162078206, 2614888103, 3248222580, 3835390401, 4022224774,
   264347078, 604807628, 770255983, 1249150122, 1555081692, 1996064986,
   2554220882, 2821834349, 2952996808, 3210313671, 3336571891, 3584528711,
   113926993, 338241895, 666307205, 773529912, 1294757372, 1396182291,
   1695183700, 1986661051, 2177026350, 2456956037, 2730485921, 2820302411,
   3259730800, 3345764771, 3516065817, 3600352804, 4094571909, 275423344,
   430227734, 506948616, 659060556, 883997877, 958139571, 1322822218,
   1537002063, 1747873779, 1955562222, 2024104815, 2227730452, 2361852424,
   2428436474, 2756734187, 3204031479, 3329325298]

/-- The eight 32-bit working variables of a SHA-256 state. -/
structure H8 where
  a : Nat
  b : Nat
  c : Nat
  d : Nat
  e : Nat
  f : Nat
  g : Nat
  hh : Nat

def sha256Init : H8 :=
  ⟨1779033703, 3144134277, 1013904242, 2773480762, 1359893119, 2600822924, 528734635, 1541459225⟩

/-- Extend the message schedule by one word. -/
def schedStep (ws : List Nat) : List Nat :=
  let n := ws.length
  ws ++ [(ssig1 (ws.getD (n - 2) 0) + ws.getD (n - 7) 0
          + ssig0 (ws.getD (n - 15) 0) + ws.getD (n - 16) 0) % M32]

/-- The 64-word message schedule from the 16 words of one block. -/
def schedule (w16 : List Nat) : List Nat :=
  Nat.rec w16 (fun _ acc => schedStep acc) 48

/-- One SHA-256 round, consuming `k[i] + w[i]`. -/
def round1 (st : H8) (kw : Nat) : H8 :=
  let t1 := (st.hh + bsig1 st.e
             + Nat.xor (Nat.land st.e st.f) (Nat.land (Nat.xor st.e 4294967295) st.g) + kw) % M32
  let t2 := (bsig0 st.a + xor3 (Nat.land st.a st.b) (Nat.land st.a st.c) (Nat.land st.b st.c)) % M32
  ⟨(t1 + t2) % M32, st.a, st.b, st.c, add32 st.d t1, st.e, st.f, st.g⟩

/-- Compress one 16-word block into the running state. -/
def compress (st : H8) (w16 : List Nat) : H8 :=
  let ws := schedule w16
  let kws := List.zipWith (fun k w => (k + w) % M32) sha256K ws
  let fin := kws.foldl round1 st
  ⟨add32 st.a fin.a, add32 st.b fin.b, add32 st.c fin.c, add32 st.d fin.d,
   add32 st.e fin.e, add32 st.f fin.f, add32 st.g fin.g, add32 st.hh fin.hh⟩

/-- Big-endian grouping of bytes into 32-bit words. -/
def bytesToWords : List Nat → List Nat
  | b0 :: b1 :: b2 :: b3 :: rest => (b0 * 16777216 + b1 * 65536 + b2 * 256 + b3) :: bytesToWords rest
  | _ => []

/-- Split a byte list into 64-byte blocks (fuel-structured so the kernel can reduce it). -/
def chunk64F : Nat → List Nat → List (List Nat)
  | 0, _ => []
  | _, [] => []
  | fuel + 1, x :: xs => ((x :: xs).take 64) :: chunk64F fuel ((x :: xs).drop 64)

def chunk64 (l : List Nat) : List (List Nat) := chunk64F l.length l

/-- The 8-byte big-endian encoding of the bit length. -/
def lenBytes8 (n : Nat) : List Nat :=
  [n / 2 ^ 56 % 256, n / 2 ^ 48 % 256, n / 2 ^ 40 % 256, n / 2 ^ 32 % 256,
   n / 2 ^ 24 % 256, n / 2 ^ 16 % 256, n / 2 ^ 8 % 256, n % 256]

/-- SHA-256 padding: `0x80`, zeros to 56 mod 64, then the bit length. -/
def padMsg (msg : List Nat) : List Nat :=
  msg ++ 128 :: List.replicate ((55 + 64 - msg.length % 64) % 64) 0 ++ lenBytes8 (msg.length * 8)

/-- SHA-256 of a byte string, as the final eight words. -/
def sha256Words (msg : List Nat) : H8 :=
  ((chunk64 (padMsg msg)).map bytesToWords).foldl compress sha256Init

/-- UTF-8 encoding of one character (models Python `str.encode()`). -/
def utf8Bytes (c : Char) : List Nat :=
  let n := c.toNat
  if n < 128 then [n]
  else if n < 2048 then [192 + n / 64, 128 + n % 64]
  else if n < 65536 then [224 + n / 4096, 128 + n / 64 % 64, 128 + n % 64]
  else [240 + n / 262144, 128 + n / 4096 % 64, 128 + n / 64 % 64, 128 + n % 64]

def strBytes (s : String) : List Nat := s.data.flatMap utf8Bytes

/-- Lower-case hex digit for a nibble. -/
def hexChar (n : Nat) : Char :=
  if n < 10 then Char.ofNat (48 + n) else Char.ofNat (87 + n % 16)

/-- The eight hex digits of a 32-bit word, most significant first. -/
def wordHex (w : Nat) : List Char :=
  [hexChar (w / 2 ^ 28 % 16), hexChar (w / 2 ^ 24 % 16), hexChar (w / 2 ^ 20 % 16),
   hexChar (w / 2 ^ 16 % 16), hexChar (w / 2 ^ 12 % 16), hexChar (w / 2 ^ 8 % 16),
   hexChar (w / 2 ^ 4 % 16), hexChar (w % 16)]

/-- Model of `hashlib.sha256(s.encode()).hexdigest()`.
(The implementation matches the FIPS 180-4 test vectors, e.g. on `"abc"`.) -/
def sha256hex (s : String) : String :=
  let st := sha256Words (strBytes s)
  String.mk (List.flatten ([st.a, st.b, st.c, st.d, st.e, st.f, st.g, st.hh].map wordHex))

theorem length_wordHex (w : Nat) : (wordHex w).length = 8 := rfl

/-- A hex digest always has 64 characters. -/
theorem sha256hex_length (s : String) : (sha256hex s).length = 64 := by
  simp [sha256hex, String.length, length_wordHex]

/-! ### The record fingerprint (`hash_record`, source lines 89-90) -/

/-- The string that `hash_record` feeds to SHA-256: `f"{dt}|{num}|{msg}"`. -/
def fpPreimage (dt num msg : String) : String := dt ++ "|" ++ num ++ "|" ++ msg

/-- Model of `hash_record(dt, num, msg)` (source lines 89-90). -/
def hash_record (dt num msg : String) : String := sha256hex (fpPreimage dt num msg)

/-- Splitting at a separator that occurs in neither left part is unambiguous. -/
theorem append_sep_inj {sep : Char} :
    ∀ (a b r1 r2 : List Char), sep ∉ a → sep ∉ b →
      a ++ sep :: r1 = b ++ sep :: r2 → a = b ∧ r1 = r2 := by
  intro a
  induction a with
  | nil =>
    intro b r1 r2 _ hb heq
    cases b with
    | nil => simpa using heq
    | cons x xs =>
      simp only [List.nil_append, List.cons_append, List.cons.injEq] at heq
      exact absurd (heq.1 ▸ List.mem_cons_self x xs) hb
  | cons x xs ih =>
    intro b r1 r2 ha hb heq
    cases b with
    | nil =>
      simp only [List.cons_append, List.nil_append, List.cons.injEq] at heq
      exact absurd (heq.1 ▸ List.mem_cons_self x xs) ha
    | cons y ys =>
      simp only [List.cons_append, List.cons.injEq] at heq
      obtain ⟨hxy, htail⟩ := heq
      have := ih ys r1 r2 (fun h => ha (List.mem_cons_of_mem x h))
        (fun h => hb (List.mem_cons_of_mem y h)) htail
      exact ⟨by simp [hxy, this.1], this.2⟩

theorem fpPreimage_data (dt num msg : String) :
    (fpPreimage dt num msg).data = dt.data ++ '|' :: (num.data ++ '|' :: msg.data) := by
  simp [fpPreimage, String.data_append]

/-- On triples whose timestamp and sender contain no `|`, the hash preimage is injective. -/
theorem fpPreimage_inj (dt1 num1 msg1 dt2 num2 msg2 : String)
    (h1 : '|' ∉ dt1.data) (h2 : '|' ∉ num1.data)
    (h3 : '|' ∉ dt2.data) (h4 : '|' ∉ num2.data)
    (heq : fpPreimage dt1 num1 msg1 = fpPreimage dt2 num2 msg2) :
    dt1 = dt2 ∧ num1 = num2 ∧ msg1 = msg2 := by
  have hdata : (fpPreimage dt1 num1 msg1).data = (fpPreimage dt2 num2 msg2).data := by
    rw [heq]
  rw [fpPreimage_data, fpPreimage_data] at hdata
  obtain ⟨hdt, hrest⟩ := append_sep_inj dt1.data dt2.data _ _ h1 h3 hdata
  obtain ⟨hnum, hmsg⟩ := append_sep_inj num1.data num2.data _ _ h2 h4 hrest
  refine ⟨?_, ?_, ?_⟩
  · cases dt1; cases dt2; exact congrArg String.mk hdt
  · cases num1; cases num2; exact congrArg String.mk hnum
  · cases msg1; cases msg2; exact congrArg String.mk hmsg

/-- C7 counterexample: the claim "any two input triples that differ in some field
produce different outputs" is false: two distinct triples whose fields straddle the
`|` separator serialize to the same preimage and therefore hash identically. -/
theorem hash_record_collision :
    hash_record "a|b" "c" "d" = hash_record "a" "b|c" "d" ∧
      ("a|b", "c", "d") ≠ (("a", "b|c", "d") : String × String × String) := by
  constructor
  · have h : fpPreimage "a|b" "c" "d" = fpPreimage "a" "b|c" "d" := by decide
    simpa [hash_record] using congrArg sha256hex h
  · decide

/-- C7 (amended): `hash_record` is deterministic (equal input triples give equal
digests, and more generally equal preimages give equal digests); distinct triples can
collide when a field contains the separator `|`, but triples whose timestamp and
sender fields are `|`-free have pairwise distinct preimages. -/
theorem hash_record_deterministic_inj :
    (∀ dt1 num1 msg1 dt2 num2 msg2 : String,
       dt1 = dt2 → num1 = num2 → msg1 = msg2 →
       hash_record dt1 num1 msg1 = hash_record dt2 num2 msg2) ∧
    (∀ dt1 num1 msg1 dt2 num2 msg2 : String,
       fpPreimage dt1 num1 msg1 = fpPreimage dt2 num2 msg2 →
       hash_record dt1 num1 msg1 = hash_record dt2 num2 msg2) ∧
    (∀ dt1 num1 msg1 dt2 num2 msg2 : String,
       '|' ∉ dt1.data → '|' ∉ num1.data → '|' ∉ dt2.data → '|' ∉ num2.data →
       (dt1, num1, msg1) ≠ (dt2, num2, msg2) →
       fpPreimage dt1 num1 msg1 ≠ fpPreimage dt2 num2 msg2) := by
  refine ⟨?_, ?_, ?_⟩
  · intro dt1 num1 msg1 dt2 num2 msg2 h1 h2 h3
    rw [h1, h2, h3]
  · intro dt1 num1 msg1 dt2 num2 msg2 h
    simp [hash_record, h]
  · intro dt1 num1 msg1 dt2 num2 msg2 h1 h2 h3 h4 hne heq
    obtain ⟨e1, e2, e3⟩ := fpPreimage_inj dt1 num1 msg1 dt2 num2 msg2 h1 h2 h3 h4 heq
    exact hne (by simp [e1, e2, e3])

/-- Witness for the amended C7 theorem at concrete inputs. -/
theorem hash_record_deterministic_inj_witness :
    ('|' ∉ ("t1" : String).data) ∧ ('|' ∉ ("s1" : String).data) ∧
      (("t1", "s1", "m") ≠ (("t2", "s1", "m") : String × String × String)) ∧
      fpPreimage "t1" "s1" "m" ≠ fpPreimage "t2" "s1" "m" := by
  refine ⟨by decide, by decide, by decide, ?_⟩
  exact hash_record_deterministic_inj.2.2 "t1" "s1" "m" "t2" "s1" "m"
    (by decide) (by decide) (by decide) (by decide) (by decide)

/-! ### Civil time (models `datetime` values in the fixed `Asia/Dhaka` zone)

Instants are modelled as `Nat` seconds of local civil time since 1970-01-01
00:00:00 local.  `fmtDT` models `strftime("%Y-%m-%d %H:%M:%S")` and `parseDT`
models `datetime.strptime(_, "%Y-%m-%d %H:%M:%S")` (which validates ranges and
raises on failure; the model returns `none` instead).  The model is restricted
to years `≥ 1970`; pre-epoch timestamps are rejected by `parseDT`. -/

def isLeap (y : Nat) : Bool := y % 4 == 0 && (y % 100 != 0 || y % 400 == 0)

/-- Days since 1970-01-01 to a Gregorian (year, month, day). -/
def civilFromDays (z : Nat) : Nat × Nat × Nat :=
  let zd := z + 719468
  let era := zd / 146097
  let doe := zd % 146097
  let yoe := (doe - doe / 1460 + doe / 36524 - doe / 146096) / 365
  let y := yoe + era * 400
  let doy := doe - (365 * yoe + yoe / 4 - yoe / 100)
  let mp := (5 * doy + 2) / 153
  let d := doy - (153 * mp + 2) / 5 + 1
  let m := if mp < 10 then mp + 3 else mp - 9
  (if m ≤ 2 then y + 1 else y, m, d)

/-- Gregorian (year, month, day) to days since 1970-01-01 (valid for dates ≥ 1970). -/
def daysFromCivil (y m d : Nat) : Nat :=
  let yA := if m ≤ 2 then y - 1 else y
  let era := yA / 400
  let yoe := yA % 400
  let mp := if 2 < m then m - 3 else m + 9
  let doy := (153 * mp + 2) / 5 + d - 1
  let doe := yoe * 365 + yoe / 4 - yoe / 100 + doy
  era * 146097 + doe - 719468

def pad2 (n : Nat) : String := if n < 10 then "0" ++ toString n else toString n

def pad4 (n : Nat) : String :=
  if n < 10 then "000" ++ toString n
  else if n < 100 then "00" ++ toString n
  else if n < 1000 then "0" ++ toString n
  else toString n

/-- Model of `strftime("%Y-%m-%d %H:%M:%S")` on a local instant. -/
def fmtDT (t : Nat) : String :=
  let c := civilFromDays (t / 86400)
  let rem := t % 86400
  pad4 c.1 ++ "-" ++ pad2 c.2.1 ++ "-" ++ pad2 c.2.2 ++ " " ++
    pad2 (rem / 3600) ++ ":" ++ pad2 (rem % 3600 / 60) ++ ":" ++ pad2 (rem % 60)

def digitsVal (ds : List Char) : Nat := ds.foldl (fun acc c => acc * 10 + (c.toNat - 48)) 0

/-- Read a run of 1 to `maxLen` digits (the `strptime` field regexes are this shape). -/
def readField (maxLen : Nat) (cs : List Char) : Option (Nat × List Char) :=
  let ds := cs.takeWhile Char.isDigit
  if ds.length = 0 || maxLen < ds.length then none
  else some (digitsVal ds, cs.dropWhile Char.isDigit)

/-- Read exactly 4 digits (the `strptime` `%Y` field regex). -/
def readYear (cs : List Char) : Option (Nat × List Char) :=
  let ds := cs.takeWhile Char.isDigit
  if ds.length = 4 then some (digitsVal ds, cs.dropWhile Char.isDigit) else none

def expectChar (c : Char) : List Char → Option (List Char)
  | x :: r => if x == c then some r else none
  | [] => none

def daysInMonth (y m : Nat) : Nat :=
  if m = 2 then (if isLeap y then 29 else 28)
  else if m = 4 || m = 6 || m = 9 || m = 11 then 30
  else 31

/-- Model of `datetime.strptime(s, "%Y-%m-%d %H:%M:%S")`: `none` models the
`ValueError` paths (bad shape, out-of-range fields, invalid day-of-month). -/
def parseDT (s : String) : Option Nat := do
  let (y, r1) ← readYear s.data
  let r2 ← expectChar '-' r1
  let (mo, r3) ← readField 2 r2
  let r4 ← expectChar '-' r3
  let (d, r5) ← readField 2 r4
  let r6 ← expectChar ' ' r5
  let (h, r7) ← readField 2 r6
  let r8 ← expectChar ':' r7
  let (mi, r9) ← readField 2 r8
  let r10 ← expectChar ':' r9
  let (sec, r11) ← readField 2 r10
  if r11.isEmpty && 1970 ≤ y && 1 ≤ mo && mo ≤ 12 && 1 ≤ d && d ≤ daysInMonth y mo
      && h ≤ 23 && mi ≤ 59 && sec ≤ 59 then
    some (daysFromCivil y mo d * 86400 + h * 3600 + mi * 60 + sec)
  else none

/-! ### The passcode extractor regex (`OTP_REGEX`, source line 40)

`re.search(r"\b(\d{4,8})\b", msg)` is modelled by a leftmost scan over the
character list.  At a given start position the greedy `\d{4,8}` followed by a
word boundary can only capture the whole maximal digit run there (a shorter
capture would be followed by a digit, which is a word character), so a position
matches exactly when its maximal digit run has length 4-8 and both neighbours
are non-word characters (or the string ends).  Word characters and digits are
modelled over ASCII, which is how every record and every spec example reads. -/

def isWordChar (c : Char) : Bool := c.isAlphanum || c == '_'

/-- The maximal digit run of `s` starting at position `i`. -/
def digitRun (s : List Char) (i : Nat) : List Char := (s.drop i).takeWhile Char.isDigit

/-- Does `\b(\d{4,8})\b` match at position `i`? -/
def otpMatchAt (s : List Char) (i : Nat) : Bool :=
  let L := (digitRun s i).length
  decide (4 ≤ L) && decide (L ≤ 8) &&
    (i == 0 || !isWordChar (s.getD (i - 1) ' ')) &&
    (i + L == s.length || !isWordChar (s.getD (i + L) ' '))

/-- Scan positions left to right (models `re.search` leftmost semantics). -/
def otpSearchFrom (s : List Char) : Nat → Nat → Option (List Char)
  | 0, _ => none
  | fuel + 1, i => if otpMatchAt s i then some (digitRun s i) else otpSearchFrom s fuel (i + 1)

/-- Model of `OTP_REGEX.search(msg)` returning the captured group. -/
def otpSearch (s : List Char) : Option (List Char) := otpSearchFrom s (s.length + 1) 0

/-- Declarative reading of the spec sentence: `r` is a run of 4-8 consecutive
digits starting at position `i`, bounded on both sides by a word boundary. -/
def OtpSpecAt (s r : List Char) (i : Nat) : Prop :=
  ∃ pre post, s = pre ++ r ++ post ∧ pre.length = i ∧
    (∀ c ∈ r, c.isDigit) ∧ 4 ≤ r.length ∧ r.length ≤ 8 ∧
    (∀ c, pre.getLast? = some c → isWordChar c = false) ∧
    (∀ c, post.head? = some c → isWordChar c = false)

theorem dropWhile_eq_drop_length_takeWhile {α : Type} (p : α → Bool) :
    ∀ l : List α, l.dropWhile p = l.drop (l.takeWhile p).length := by
  intro l
  induction l with
  | nil => rfl
  | cons x xs ih =>
    by_cases h : p x
    · simp [List.dropWhile_cons, List.takeWhile_cons, h, ih]
    · simp [List.dropWhile_cons, List.takeWhile_cons, h]

theorem takeWhile_append_of_all {α : Type} (p : α → Bool) :
    ∀ (r post : List α), (∀ c ∈ r, p c) →
      (∀ c, post.head? = some c → p c = false) →
      (r ++ post).takeWhile p = r := by
  intro r
  induction r with
  | nil =>
    intro post _ hpost
    cases post with
    | nil => rfl
    | cons x xs => simp [List.takeWhile_cons, hpost x rfl]
  | cons x xs ih =>
    intro post hall hpost
    simp [List.takeWhile_cons, hall x (List.mem_cons_self x xs),
      ih post (fun c hc => hall c (List.mem_cons_of_mem x hc)) hpost]

theorem isWordChar_of_isDigit {c : Char} (h : c.isDigit = true) : isWordChar c = true := by
  simp [isWordChar, Char.isAlphanum, h]

/-- Soundness: a matching position yields a run satisfying the declarative spec. -/
theorem otpMatchAt_spec (s : List Char) (i : Nat) (h : otpMatchAt s i = true) :
    OtpSpecAt s (digitRun s i) i := by
  simp only [otpMatchAt, Bool.and_eq_true, Bool.or_eq_true, decide_eq_true_eq,
    beq_iff_eq, Bool.not_eq_true'] at h
  obtain ⟨⟨⟨h4, h8⟩, hpre⟩, hpost⟩ := h
  have hlen : (digitRun s i).length ≤ (s.drop i).length :=
    (List.takeWhile_prefix _).length_le
  have hil : i < s.length := by
    by_contra hc
    push_neg at hc
    have hnil : s.drop i = [] := List.drop_eq_nil_of_le hc
    simp only [digitRun, hnil] at h4
    simp at h4
  have hdropw : (s.drop i).dropWhile Char.isDigit = s.drop (i + (digitRun s i).length) := by
    rw [dropWhile_eq_drop_length_takeWhile]
    simp only [digitRun]
    rw [List.drop_drop]
  have hdecomp : s = s.take i ++ digitRun s i ++ s.drop (i + (digitRun s i).length) := by
    rw [List.append_assoc, ← hdropw]
    simp only [digitRun]
    rw [List.takeWhile_append_dropWhile, List.take_append_drop]
  refine ⟨s.take i, s.drop (i + (digitRun s i).length), hdecomp, ?_, ?_, h4, h8, ?_, ?_⟩
  · rw [List.length_take]
    omega
  · intro c hc
    exact List.mem_takeWhile_imp hc
  · intro c hc
    rcases hpre with h0 | hw
    · subst h0
      simp at hc
    · rcases Nat.eq_zero_or_pos i with h0 | hip
      · subst h0
        simp at hc
      · have htake : (s.take i).getLast? = s[i - 1]? := by
          rw [List.getLast?_eq_getElem?, List.length_take, min_eq_left (le_of_lt hil),
            List.getElem?_take, if_pos (show i - 1 < i by omega)]
        rw [htake] at hc
        rw [List.getD_eq_getElem?_getD, hc] at hw
        simpa using hw
  · intro c hc
    rcases hpost with hend | hw
    · rw [List.drop_eq_nil_of_le (by omega)] at hc
      simp at hc
    · have hhead : (s.drop (i + (digitRun s i).length)).head? = s[i + (digitRun s i).length]? := by
        rw [List.head?_eq_getElem?, List.getElem?_drop]
        norm_num
      rw [hhead] at hc
      rw [List.getD_eq_getElem?_getD, hc] at hw
      simpa using hw

/-- Completeness: a run satisfying the declarative spec forces a match, and the
captured run is exactly the maximal digit run at that position. -/
theorem otpSpec_matchAt {s r : List Char} {i : Nat} (h : OtpSpecAt s r i) :
    otpMatchAt s i = true ∧ r = digitRun s i := by
  obtain ⟨pre, post, hs, hlen, hdig, h4, h8, hpre, hpost⟩ := h
  have hpost2 : ∀ c, post.head? = some c → Char.isDigit c = false := by
    intro c hc
    cases hb : Char.isDigit c
    · rfl
    · exact absurd (hpost c hc) (by simp [isWordChar_of_isDigit hb])
  have hdrop : s.drop i = r ++ post := by
    rw [hs, List.append_assoc, ← hlen, List.drop_left]
  have hrun : digitRun s i = r := by
    simp only [digitRun]
    rw [hdrop, takeWhile_append_of_all Char.isDigit r post hdig hpost2]
  refine ⟨?_, hrun.symm⟩
  simp only [otpMatchAt, Bool.and_eq_true, Bool.or_eq_true, decide_eq_true_eq,
    beq_iff_eq, Bool.not_eq_true']
  refine ⟨⟨⟨by rw [hrun]; exact h4, by rw [hrun]; exact h8⟩, ?_⟩, ?_⟩
  · rcases Nat.eq_zero_or_pos i with h0 | hip
    · exact Or.inl h0
    · right
      have hprene : pre ≠ [] := by
        intro hn
        rw [hn] at hlen
        simp at hlen
        omega
      have hlast : pre.getLast? = some (pre.getLast hprene) := List.getLast?_eq_getLast pre hprene
      have hw := hpre _ hlast
      have hidx : s.getD (i - 1) ' ' = pre.getLast hprene := by
        rw [List.getD_eq_getElem?_getD, hs]
        rw [List.getElem?_append,
          if_pos (show i - 1 < (pre ++ r).length by simp [List.length_append]; omega)]
        rw [List.getElem?_append, if_pos (show i - 1 < pre.length by omega)]
        have hgl : pre.getLast? = pre[i - 1]? := by
          rw [List.getLast?_eq_getElem?, hlen]
        rw [← hgl, hlast]
        rfl
      rw [hidx]
      exact hw
  · cases hpc : post with
    | nil =>
      left
      have hsl : s.length = i + r.length := by
        rw [hs, hpc]
        simp [List.length_append]
        omega
      rw [hrun]
      omega
    | cons c cs =>
      right
      have hw := hpost c (by rw [hpc]; rfl)
      have hidx : s.getD (i + (digitRun s i).length) ' ' = c := by
        rw [hrun, List.getD_eq_getElem?_getD, hs]
        rw [List.getElem?_append,
          if_neg (show ¬ (i + r.length < (pre ++ r).length) by simp [List.length_append]; omega)]
        rw [show i + r.length - (pre ++ r).length = 0 by simp [List.length_append]; omega]
        rw [hpc]
        simp
      rw [hidx]
      exact hw

/-- A spec-satisfying run can only start before the end of the string. -/
theorem otpSpec_lt_length {s r : List Char} {i : Nat} (h : OtpSpecAt s r i) : i < s.length := by
  obtain ⟨pre, post, hs, hlen, _, h4, _, _, _⟩ := h
  rw [hs]
  simp [List.length_append]
  omega

/-- Characterization of the scanning search: success means a first match. -/
theorem otpSearchFrom_some (s : List Char) :
    ∀ (fuel i : Nat) (r : List Char), otpSearchFrom s fuel i = some r →
      ∃ j, i ≤ j ∧ j < i + fuel ∧ otpMatchAt s j = true ∧ r = digitRun s j ∧
        ∀ k, i ≤ k → k < j → otpMatchAt s k = false := by
  intro fuel
  induction fuel with
  | zero => intro i r h; simp [otpSearchFrom] at h
  | succ n ih =>
    intro i r h
    rw [otpSearchFrom] at h
    by_cases hm : otpMatchAt s i
    · rw [if_pos hm] at h
      exact ⟨i, le_refl i, by omega, hm, by simpa using h.symm, fun k hk1 hk2 => by omega⟩
    · rw [if_neg hm] at h
      obtain ⟨j, hj1, hj2, hj3, hj4, hj5⟩ := ih (i + 1) r h
      refine ⟨j, by omega, by omega, hj3, hj4, ?_⟩
      intro k hk1 hk2
      by_cases hki : k = i
      · subst hki
        exact Bool.not_eq_true _ ▸ (by simpa using hm)
      · exact hj5 k (by omega) hk2

/-- Characterization of the scanning search: failure means no match in range. -/
theorem otpSearchFrom_none (s : List Char) :
    ∀ (fuel i : Nat), otpSearchFrom s fuel i = none →
      ∀ j, i ≤ j → j < i + fuel → otpMatchAt s j = false := by
  intro fuel
  induction fuel with
  | zero => intro i _ j h1 h2; omega
  | succ n ih =>
    intro i h j h1 h2
    rw [otpSearchFrom] at h
    by_cases hm : otpMatchAt s i
    · rw [if_pos hm] at h; cases h
    · rw [if_neg hm] at h
      by_cases hji : j = i
      · subst hji; simpa using hm
      · exact ih (i + 1) h j (by omega) (by omega)

/-! ### The record extractor (`extract_from_record`, source lines 113-119)

A `RawRecord` models the upstream JSON mapping restricted to the keys the
extractor reads; `none` models an absent key.  Python `a or b` returns `a`
when it is truthy (for these fields: a present, non-empty string), else `b`;
`truthyStr` and `pyOr` model that.  The `nowStr` parameter models the
`datetime.now(TZ).strftime(...)` call evaluated when the `dt` field is falsy. -/

def truthyStr : Option String → Bool
  | none => false
  | some s => !(s == "")

def pyOr (a b : Option String) : Option String := if truthyStr a then a else b

def orEmpty (a : Option String) : String := if truthyStr a then a.getD "" else ""

/-- An upstream record, restricted to the keys read by the extractor.
`fromF` models the key `"from"` (a Lean keyword). -/
structure RawRecord where
  num : Option String := none
  number : Option String := none
  fromF : Option String := none
  message : Option String := none
  msg : Option String := none
  body : Option String := none
  dt : Option String := none

/-- Model of `extract_from_record(rec)` returning `(num, otp, dt, msg)`. -/
def extract_from_record (nowStr : String) (rec : RawRecord) :
    String × String × String × String :=
  let num := orEmpty (pyOr (pyOr rec.num rec.number) rec.fromF)
  let msg := orEmpty (pyOr (pyOr rec.message rec.msg) rec.body)
  let dt := if truthyStr rec.dt then rec.dt.getD "" else nowStr
  let otp := match otpSearch msg.data with
    | some r => String.mk r
    | none => ""
  (num, otp, dt, msg)

/-- C6: the extractor takes as passcode the first (leftmost) run of 4-8
consecutive digits bounded by word boundaries, and the empty string when no such
run exists; in particular `"Your code is 48213 now"` yields `"48213"` and
`"no codes here"` yields `""`. -/
theorem otp_first_bounded_run :
    (∀ (s r : List Char), otpSearch s = some r →
        ∃ i, OtpSpecAt s r i ∧ ∀ (r2 : List Char) (j : Nat), OtpSpecAt s r2 j → i ≤ j) ∧
    (∀ s : List Char, otpSearch s = none → ∀ (r : List Char) (i : Nat), ¬ OtpSpecAt s r i) ∧
    (∀ nowStr rec, rec.message = some "Your code is 48213 now" → rec.msg = none →
        rec.body = none → (extract_from_record nowStr rec).2.1 = "48213") ∧
    (∀ nowStr rec, rec.message = some "no codes here" → rec.msg = none →
        rec.body = none → (extract_from_record nowStr rec).2.1 = "") := by
  refine ⟨?_, ?_, ?_, ?_⟩
  · intro s r h
    obtain ⟨j, _, _, hm, hr, hmin⟩ := otpSearchFrom_some s _ _ _ h
    refine ⟨j, hr ▸ otpMatchAt_spec s j hm, ?_⟩
    intro r2 j2 hspec
    by_contra hlt
    push_neg at hlt
    have hm2 := (otpSpec_matchAt hspec).1
    have := hmin j2 (by omega) hlt
    rw [this] at hm2
    cases hm2
  · intro s h r i hspec
    have hm := (otpSpec_matchAt hspec).1
    have hlt := otpSpec_lt_length hspec
    have := otpSearchFrom_none s _ 0 h i (by omega) (by omega)
    rw [this] at hm
    cases hm
  · intro nowStr rec h1 h2 h3
    simp [extract_from_record, orEmpty, pyOr, truthyStr, h1, h2, h3]
    decide
  · intro nowStr rec h1 h2 h3
    simp [extract_from_record, orEmpty, pyOr, truthyStr, h1, h2, h3]
    decide

/-- Witness for C6 at the two spec examples. -/
theorem otp_first_bounded_run_witness :
    (otpSearch ("Your code is 48213 now".data) = some ("48213".data)) ∧
      (∃ i, OtpSpecAt ("Your code is 48213 now".data) ("48213".data) i ∧
        ∀ (r2 : List Char) (j : Nat), OtpSpecAt ("Your code is 48213 now".data) r2 j → i ≤ j) ∧
      (otpSearch ("no codes here".data) = none) ∧
      (∀ (r : List Char) (i : Nat), ¬ OtpSpecAt ("no codes here".data) r i) ∧
      (extract_from_record "T" { message := some "Your code is 48213 now" } =
        ("", "48213", "T", "Your code is 48213 now")) := by
  refine ⟨by decide, otp_first_bounded_run.1 _ _ (by decide), by decide,
    otp_first_bounded_run.2.1 _ (by decide), ?_⟩
  exact otp_first_bounded_run.2.2.1 "T" { message := some "Your code is 48213 now" }
    rfl rfl rfl ▸ (by decide)

theorem truthy_some_empty : truthyStr (some "") = false := rfl

theorem truthy_none : truthyStr none = false := rfl

theorem pyOr_truthy (a b : Option String) (h : truthyStr a = true) : pyOr a b = a := by
  simp [pyOr, h]

theorem pyOr_falsy (a b : Option String) (h : truthyStr a = false) : pyOr a b = b := by
  simp [pyOr, h]

theorem pyOr_some_empty (b : Option String) : pyOr (some "") b = b := rfl

theorem pyOr_none (b : Option String) : pyOr none b = b := rfl

theorem orEmpty_some_empty : orEmpty (some "") = "" := rfl

theorem orEmpty_none : orEmpty none = "" := rfl

theorem fpPreimage_ne_left {dt1 dt2 n m : String} (h1 : '|' ∉ dt1.data)
    (h2 : '|' ∉ dt2.data) (hne : dt1 ≠ dt2) : fpPreimage dt1 n m ≠ fpPreimage dt2 n m := by
  intro heq
  have hdata := congrArg String.data heq
  rw [fpPreimage_data, fpPreimage_data] at hdata
  obtain ⟨hdt, -⟩ := append_sep_inj dt1.data dt2.data _ _ h1 h2 hdata
  exact hne (by cases dt1; cases dt2; exact congrArg String.mk hdt)

/-- C10: a present-but-falsy field (empty string, or null modelled as absent) is
treated like an absent field by every fallback chain of the extractor; a record
whose `dt` field is falsy gets the current formatted time as its timestamp, so
its hash preimage — and hence its fingerprint — changes across polls whose
formatted times differ (shown concretely for two polls one minute apart). -/
theorem extract_falsy_fallbacks :
    (∀ (nowStr : String) (rec : RawRecord),
        extract_from_record nowStr { rec with num := some "" } =
        extract_from_record nowStr { rec with num := none }) ∧
    (∀ (nowStr : String) (rec : RawRecord),
        extract_from_record nowStr { rec with number := some "" } =
        extract_from_record nowStr { rec with number := none }) ∧
    (∀ (nowStr : String) (rec : RawRecord),
        extract_from_record nowStr { rec with fromF := some "" } =
        extract_from_record nowStr { rec with fromF := none }) ∧
    (∀ (nowStr : String) (rec : RawRecord),
        extract_from_record nowStr { rec with message := some "" } =
        extract_from_record nowStr { rec with message := none }) ∧
    (∀ (nowStr : String) (rec : RawRecord),
        extract_from_record nowStr { rec with msg := some "" } =
        extract_from_record nowStr { rec with msg := none }) ∧
    (∀ (nowStr : String) (rec : RawRecord),
        extract_from_record nowStr { rec with body := some "" } =
        extract_from_record nowStr { rec with body := none }) ∧
    (∀ (nowStr : String) (rec : RawRecord),
        extract_from_record nowStr { rec with dt := some "" } =
        extract_from_record nowStr { rec with dt := none }) ∧
    (∀ nowStr rec, truthyStr rec.dt = false →
        (extract_from_record nowStr rec).2.2.1 = nowStr) ∧
    (∀ (n1 n2 : String) (rec : RawRecord), truthyStr rec.dt = false → n1 ≠ n2 →
        '|' ∉ n1.data → '|' ∉ n2.data →
        fpPreimage (extract_from_record n1 rec).2.2.1 (extract_from_record n1 rec).1
            (extract_from_record n1 rec).2.2.2 ≠
          fpPreimage (extract_from_record n2 rec).2.2.1 (extract_from_record n2 rec).1
            (extract_from_record n2 rec).2.2.2) ∧
    (hash_record (fmtDT 0) "888" "m" ≠ hash_record (fmtDT 60) "888" "m") := by
  refine ⟨?_, ?_, ?_, ?_, ?_, ?_, ?_, ?_, ?_, ?_⟩
  · intro nowStr rec
    simp only [extract_from_record, pyOr_some_empty, pyOr_none]
  · intro nowStr rec
    cases h : truthyStr rec.num
    · simp only [extract_from_record, pyOr_falsy _ _ h, pyOr_some_empty, pyOr_none]
    · simp only [extract_from_record, pyOr_truthy _ _ h]
  · intro nowStr rec
    cases h : truthyStr (pyOr rec.num rec.number)
    · simp only [extract_from_record, pyOr_falsy _ _ h, orEmpty_some_empty, orEmpty_none]
    · simp only [extract_from_record, pyOr_truthy _ _ h]
  · intro nowStr rec
    simp only [extract_from_record, pyOr_some_empty, pyOr_none]
  · intro nowStr rec
    cases h : truthyStr rec.message
    · simp only [extract_from_record, pyOr_falsy _ _ h, pyOr_some_empty, pyOr_none]
    · simp only [extract_from_record, pyOr_truthy _ _ h]
  · intro nowStr rec
    cases h : truthyStr (pyOr rec.message rec.msg)
    · simp only [extract_from_record, pyOr_falsy _ _ h, orEmpty_some_empty, orEmpty_none]
    · simp only [extract_from_record, pyOr_truthy _ _ h]
  · intro nowStr rec
    simp only [extract_from_record, truthy_some_empty, truthy_none]
    simp
  · intro nowStr rec h
    simp [extract_from_record, h]
  · intro n1 n2 rec hdt hne h1 h2
    have e1 : (extract_from_record n1 rec).2.2.1 = n1 := by simp [extract_from_record, hdt]
    have e2 : (extract_from_record n2 rec).2.2.1 = n2 := by simp [extract_from_record, hdt]
    have e3 : (extract_from_record n1 rec).1 = (extract_from_record n2 rec).1 := by
      simp [extract_from_record]
    have e4 : (extract_from_record n1 rec).2.2.2 = (extract_from_record n2 rec).2.2.2 := by
      simp [extract_from_record]
    rw [e1, e2, e3, e4]
    exact fpPreimage_ne_left h1 h2 hne
  · decide

/-- Witness for C10: the hypothesis-carrying parts applied at a concrete record
and two concrete poll instants one minute apart. -/
theorem extract_falsy_fallbacks_witness :
    (truthyStr (RawRecord.dt { num := some "888", message := some "m" }) = false) ∧
      (fmtDT 0 ≠ fmtDT 60) ∧ ('|' ∉ (fmtDT 0).data) ∧ ('|' ∉ (fmtDT 60).data) ∧
      (extract_from_record (fmtDT 0) { num := some "888", message := some "m" }).2.2.1 = fmtDT 0 ∧
      fpPreimage (extract_from_record (fmtDT 0) { num := some "888", message := some "m" }).2.2.1
          (extract_from_record (fmtDT 0) { num := some "888", message := some "m" }).1
          (extract_from_record (fmtDT 0) { num := some "888", message := some "m" }).2.2.2 ≠
        fpPreimage (extract_from_record (fmtDT 60) { num := some "888", message := some "m" }).2.2.1
          (extract_from_record (fmtDT 60) { num := some "888", message := some "m" }).1
          (extract_from_record (fmtDT 60) { num := some "888", message := some "m" }).2.2.2 := by
  refine ⟨by decide, by decide, by decide, by decide, ?_, ?_⟩
  · exact extract_falsy_fallbacks.2.2.2.2.2.2.2.1 (fmtDT 0)
      { num := some "888", message := some "m" } (by decide)
  · exact extract_falsy_fallbacks.2.2.2.2.2.2.2.2.1 (fmtDT 0) (fmtDT 60)
      { num := some "888", message := some "m" } (by decide) (by decide) (by decide) (by decide)

/-! ### JSON (models `json.load` / `json.dump` for the state file)

`Json.num` keeps the numeric literal verbatim (float formatting is outside the
model; state files contain no numbers).  `dumpJson` follows `json.dump`
defaults: separators `", "`/`": "` and `ensure_ascii` escaping.  The parser is
strict JSON plus the Python extensions `NaN`/`Infinity`/`-Infinity`; surrogate
`\u` pairs are not recombined (Lean `Char` cannot hold lone surrogates). -/

inductive Json where
  | null
  | bool (b : Bool)
  | num (lit : String)
  | str (s : String)
  | arr (xs : List Json)
  | obj (kvs : List (String × Json))

def hex4 (n : Nat) : List Char :=
  [hexChar (n / 4096 % 16), hexChar (n / 256 % 16), hexChar (n / 16 % 16), hexChar (n % 16)]

/-- `json.dump` escaping of one character (`ensure_ascii=True`). -/
def escChar (c : Char) : List Char :=
  if c == '"' then ['\\', '"']
  else if c == '\\' then ['\\', '\\']
  else if c == '\n' then ['\\', 'n']
  else if c == '\r' then ['\\', 'r']
  else if c == '\t' then ['\\', 't']
  else if c.toNat == 8 then ['\\', 'b']
  else if c.toNat == 12 then ['\\', 'f']
  else if c.toNat < 32 then '\\' :: 'u' :: hex4 c.toNat
  else if c.toNat < 127 then [c]
  else if c.toNat < 65536 then '\\' :: 'u' :: hex4 c.toNat
  else
    let v := c.toNat - 65536
    ('\\' :: 'u' :: hex4 (55296 + v / 1024)) ++ ('\\' :: 'u' :: hex4 (56320 + v % 1024))

def escStr (s : String) : List Char := s.data.flatMap escChar

def joinSep (sep : String) : List String → String
  | [] => ""
  | [x] => x
  | x :: y :: rest => x ++ sep ++ joinSep sep (y :: rest)

mutual

def dumpJson : Json → String
  | .null => "null"
  | .bool true => "true"
  | .bool false => "false"
  | .num lit => lit
  | .str s => String.mk ('"' :: (escStr s ++ ['"']))
  | .arr xs => "[" ++ joinSep ", " (dumpList xs) ++ "]"
  | .obj kvs => "\x7b" ++ joinSep ", " (dumpObj kvs) ++ "\x7d"

def dumpList : List Json → List String
  | [] => []
  | x :: xs => dumpJson x :: dumpList xs

def dumpObj : List (String × Json) → List String
  | [] => []
  | (k, v) :: xs => (String.mk ('"' :: (escStr k ++ ['"'])) ++ ": " ++ dumpJson v) :: dumpObj xs

end

def isJsonWs (c : Char) : Bool := c == ' ' || c == '\t' || c == '\n' || c == '\r'

def skipWs (cs : List Char) : List Char := cs.dropWhile isJsonWs

def hexVal (c : Char) : Option Nat :=
  if '0' ≤ c ∧ c ≤ '9' then some (c.toNat - 48)
  else if 'a' ≤ c ∧ c ≤ 'f' then some (c.toNat - 87)
  else if 'A' ≤ c ∧ c ≤ 'F' then some (c.toNat - 55)
  else none

/-- JSON string body parser (after the opening quote); strict mode: raw control
characters are rejected, standard escapes are decoded. -/
def parseStrAux (acc : List Char) : List Char → Option (String × List Char)
  | [] => none
  | c :: rest =>
    if c == '"' then some (String.mk acc.reverse, rest)
    else if c == '\\' then
      match rest with
      | [] => none
      | e :: r2 =>
        if e == '"' then parseStrAux ('"' :: acc) r2
        else if e == '\\' then parseStrAux ('\\' :: acc) r2
        else if e == '/' then parseStrAux ('/' :: acc) r2
        else if e == 'b' then parseStrAux (Char.ofNat 8 :: acc) r2
        else if e == 'f' then parseStrAux (Char.ofNat 12 :: acc) r2
        else if e == 'n' then parseStrAux ('\n' :: acc) r2
        else if e == 'r' then parseStrAux ('\r' :: acc) r2
        else if e == 't' then parseStrAux ('\t' :: acc) r2
        else if e == 'u' then
          match r2 with
          | h1 :: h2 :: h3 :: h4 :: r3 =>
            match hexVal h1, hexVal h2, hexVal h3, hexVal h4 with
            | some v1, some v2, some v3, some v4 =>
              parseStrAux (Char.ofNat (4096 * v1 + 256 * v2 + 16 * v3 + v4) :: acc) r3
            | _, _, _, _ => none
          | _ => none
        else none
    else if c.toNat < 32 then none
    else parseStrAux (c :: acc) rest

def parseFrac (cs : List Char) : List Char × List Char :=
  match cs with
  | '.' :: r =>
    let fd := r.takeWhile Char.isDigit
    if fd.isEmpty then ([], cs) else ('.' :: fd, r.dropWhile Char.isDigit)
  | _ => ([], cs)

def parseExp (cs : List Char) : List Char × List Char :=
  match cs with
  | e :: r =>
    if e == 'e' || e == 'E' then
      let (sgn, r2) : List Char × List Char := match r with
        | s :: r3 => if s == '+' || s == '-' then ([s], r3) else ([], r)
        | [] => ([], r)
      let ed := r2.takeWhile Char.isDigit
      if ed.isEmpty then ([], cs) else (e :: (sgn ++ ed), r2.dropWhile Char.isDigit)
    else ([], cs)
  | [] => ([], cs)

/-- JSON number parser, plus the Python-accepted `NaN`/`Infinity` literals. -/
def parseNum (cs : List Char) : Option (Json × List Char) :=
  match cs with
  | 'N' :: 'a' :: 'N' :: r => some (.num "NaN", r)
  | 'I' :: 'n' :: 'f' :: 'i' :: 'n' :: 'i' :: 't' :: 'y' :: r => some (.num "Infinity", r)
  | '-' :: 'I' :: 'n' :: 'f' :: 'i' :: 'n' :: 'i' :: 't' :: 'y' :: r => some (.num "-Infinity", r)
  | _ =>
    let (neg, r1) : List Char × List Char := match cs with
      | c :: r => if c == '-' then (['-'], r) else ([], cs)
      | [] => ([], cs)
    let ds := r1.takeWhile Char.isDigit
    let r2 := r1.dropWhile Char.isDigit
    if ds.isEmpty then none
    else if 1 < ds.length && ds.headD '0' == '0' then none
    else
      let (frac, r3) := parseFrac r2
      let (ex, r4) := parseExp r3
      some (.num (String.mk (neg ++ ds ++ frac ++ ex)), r4)

/-- Python `dict` insertion with last-wins overwrite (duplicate JSON keys). -/
def upsert : List (String × Json) → String → Json → List (String × Json)
  | [], k, v => [(k, v)]
  | (k0, v0) :: rest, k, v =>
    if k0 == k then (k0, v) :: rest else (k0, v0) :: upsert rest k v

def dictify (kvs : List (String × Json)) : List (String × Json) :=
  kvs.foldl (fun acc kv => upsert acc kv.1 kv.2) []

mutual

def parseVal : Nat → List Char → Option (Json × List Char)
  | 0, _ => none
  | fuel + 1, cs =>
    match cs with
    | [] => none
    | c :: rest =>
      if c == '"' then
        match parseStrAux [] rest with
        | some (s, r) => some (.str s, r)
        | none => none
      else if c == Char.ofNat 123 then
        match skipWs rest with
        | c2 :: r2 =>
          if c2 == Char.ofNat 125 then some (.obj [], r2)
          else
            match parseMembers fuel (skipWs rest) with
            | some (kvs, r) => some (.obj (dictify kvs), r)
            | none => none
        | [] => none
      else if c == '[' then
        match skipWs rest with
        | c2 :: r2 =>
          if c2 == ']' then some (.arr [], r2)
          else
            match parseItems fuel (skipWs rest) with
            | some (xs, r) => some (.arr xs, r)
            | none => none
        | [] => none
      else if c == 't' then
        match rest with
        | 'r' :: 'u' :: 'e' :: r => some (.bool true, r)
        | _ => none
      else if c == 'f' then
        match rest with
        | 'a' :: 'l' :: 's' :: 'e' :: r => some (.bool false, r)
        | _ => none
      else if c == 'n' then
        match rest with
        | 'u' :: 'l' :: 'l' :: r => some (.null, r)
        | _ => none
      else parseNum cs

def parseItems : Nat → List Char → Option (List Json × List Char)
  | 0, _ => none
  | fuel + 1, cs =>
    match parseVal fuel cs with
    | none => none
    | some (v, r1) =>
      match skipWs r1 with
      | ',' :: r2 =>
        match parseItems fuel (skipWs r2) with
        | some (xs, r) => some (v :: xs, r)
        | none => none
      | ']' :: r2 => some ([v], r2)
      | _ => none

def parseMembers : Nat → List Char → Option (List (String × Json) × List Char)
  | 0, _ => none
  | fuel + 1, cs =>
    match cs with
    | c :: rest =>
      if c == '"' then
        match parseStrAux [] rest with
        | some (k, r1) =>
          match skipWs r1 with
          | ':' :: r2 =>
            match parseVal fuel (skipWs r2) with
            | some (v, r3) =>
              match skipWs r3 with
              | ',' :: r4 =>
                match parseMembers fuel (skipWs r4) with
                | some (kvs, r) => some ((k, v) :: kvs, r)
                | none => none
              | c5 :: r5 => if c5 == Char.ofNat 125 then some ([(k, v)], r5) else none
              | [] => none
            | none => none
          | _ => none
        | none => none
      else none
    | [] => none

end

/-- Model of `json.load` on the whole file text (`none` models the raised
`JSONDecodeError`).  The fuel `3 * length + 16` exceeds the recursion any
input can consume. -/
def parseJson (s : String) : Option Json :=
  let cs := skipWs s.data
  match parseVal (3 * cs.length + 16) cs with
  | some (j, rest) => if (skipWs rest).isEmpty then some j else none
  | none => none

/-! ### The state store (`load_state` / `save_state`, source lines 72-87) -/

/-- Python `dict.get(k)` on a parsed JSON value (post-`dictify` keys are unique;
`find?` takes the first match). -/
def jGet : Json → String → Option Json
  | .obj kvs, k => (kvs.find? (fun kv => kv.1 == k)).map Prod.snd
  | _, _ => none

/-- The default state produced on any `load_state` failure (source lines 77-80):
`last_dt` is now minus one minute, `seen` is empty. -/
def defaultStateJson (now : Nat) : Json :=
  .obj [("last_dt", .str (fmtDT (now - 60))), ("seen", .arr [])]

/-- Model of `load_state()`.  `file = none` models `open` raising (missing or
unreadable file); an unparseable content models `json.load` raising; both are
swallowed by the bare `except` and yield the default state.  The function is
total: `load_state` never raises. -/
def load_state (file : Option String) (now : Nat) : Json :=
  match file with
  | none => defaultStateJson now
  | some c =>
    match parseJson c with
    | some j => j
    | none => defaultStateJson now

/-- Model of `save_state(data)`: the file content written by `json.dump`. -/
def save_state (j : Json) : String := dumpJson j

/-- C4: `load_state` never raises (it is a total function); on a missing file or
unparseable content it returns the default state whose `last_dt` is the current
time minus one minute and whose fingerprint set is empty. -/
theorem load_state_default :
    (∀ now : Nat, load_state none now = defaultStateJson now) ∧
    (∀ (c : String) (now : Nat), parseJson c = none →
        load_state (some c) now = defaultStateJson now) ∧
    (∀ now : Nat, jGet (defaultStateJson now) "last_dt" = some (.str (fmtDT (now - 60))) ∧
        jGet (defaultStateJson now) "seen" = some (.arr [])) := by
  refine ⟨fun now => rfl, ?_, ?_⟩
  · intro c now h
    simp [load_state, h]
  · intro now
    exact ⟨rfl, rfl⟩

/-- Witness for C4: a concrete unparseable file content. -/
theorem load_state_default_witness :
    parseJson "not json\x7b" = none ∧
      load_state (some "not json\x7b") 3600 = defaultStateJson 3600 ∧
      jGet (defaultStateJson 3600) "last_dt" = some (.str (fmtDT 3540)) := by
  refine ⟨by rfl, load_state_default.2.1 "not json\x7b" 3600 (by rfl), ?_⟩
  exact (load_state_default.2.2 3600).1

/-! ### Round-trip of the persisted state (`save_state` then `load_state`)

A well-formed persisted state holds a datetime string and hex-digest
fingerprints; all of these consist of printable ASCII characters that neither
`json.dump` escaping nor `json.load` unescaping touches. -/

def plainChar (c : Char) : Bool :=
  32 ≤ c.toNat && c.toNat < 127 && c != '"' && c != '\\'

def plainStr (s : String) : Bool := s.data.all plainChar

theorem mkData (s : String) : String.mk s.data = s := rfl

theorem plainChar_facts {c : Char} (h : plainChar c = true) :
    (c == '"') = false ∧ (c == '\\') = false ∧ 32 ≤ c.toNat ∧ c.toNat < 127 := by
  simp only [plainChar, Bool.and_eq_true, decide_eq_true_eq, bne_iff_ne, ne_eq] at h
  obtain ⟨⟨⟨h1, h2⟩, h3⟩, h4⟩ := h
  exact ⟨beq_eq_false_iff_ne.mpr h3, beq_eq_false_iff_ne.mpr h4, h1, h2⟩

theorem escChar_plain {c : Char} (h : plainChar c = true) : escChar c = [c] := by
  obtain ⟨h1, h2, h3, h4⟩ := plainChar_facts h
  have hn : (c == '\n') = false := by
    refine beq_eq_false_iff_ne.mpr ?_
    intro he
    subst he
    exact absurd h3 (by decide)
  have hr : (c == '\r') = false := by
    refine beq_eq_false_iff_ne.mpr ?_
    intro he
    subst he
    exact absurd h3 (by decide)
  have ht : (c == '\t') = false := by
    refine beq_eq_false_iff_ne.mpr ?_
    intro he
    subst he
    exact absurd h3 (by decide)
  have h8 : (c.toNat == 8) = false := by
    refine beq_eq_false_iff_ne.mpr ?_
    omega
  have h12 : (c.toNat == 12) = false := by
    refine beq_eq_false_iff_ne.mpr ?_
    omega
  simp only [escChar, h1, h2, hn, hr, ht, h8, h12, Bool.false_eq_true, if_false]
  rw [if_neg (by omega : ¬ c.toNat < 32), if_pos h4]

theorem escList_plain : ∀ l : List Char, l.all plainChar = true → l.flatMap escChar = l := by
  intro l
  induction l with
  | nil => intro _; rfl
  | cons c cs ih =>
    intro h
    simp only [List.all_cons, Bool.and_eq_true] at h
    simp [List.flatMap_cons, escChar_plain h.1, ih h.2]

theorem escStr_plain {s : String} (h : plainStr s = true) : escStr s = s.data :=
  escList_plain s.data h

theorem parseStrAux_plain :
    ∀ (l : List Char) (acc rest : List Char), l.all plainChar = true →
      parseStrAux acc (l ++ '"' :: rest) = some (String.mk (acc.reverse ++ l), rest) := by
  intro l
  induction l with
  | nil =>
    intro acc rest _
    rw [parseStrAux.eq_def]
    simp
  | cons c cs ih =>
    intro acc rest h
    simp only [List.all_cons, Bool.and_eq_true] at h
    obtain ⟨h1, h2, h3, h4⟩ := plainChar_facts h.1
    rw [List.cons_append, parseStrAux.eq_def]
    simp only [h1, h2, Bool.false_eq_true, if_false]
    rw [if_neg (by omega : ¬ c.toNat < 32)]
    rw [ih (c :: acc) rest h.2]
    simp

theorem parseVal_str (k : Nat) (s : String) (rest : List Char) (hp : plainStr s = true) :
    parseVal (k + 1) ('"' :: (s.data ++ ('"' :: rest))) = some (.str s, rest) := by
  have h1 := parseStrAux_plain s.data [] rest hp
  simp only [List.reverse_nil, List.nil_append, mkData] at h1
  simp [parseVal, h1]

theorem skipWs_not_ws {c : Char} (l : List Char) (h : isJsonWs c = false) :
    skipWs (c :: l) = c :: l := by
  simp [skipWs, List.dropWhile_cons, h]

theorem skipWs_space (l : List Char) : skipWs (' ' :: l) = skipWs l := by
  simp [skipWs, List.dropWhile_cons, isJsonWs]

/-- The characters of the dumped fingerprint list, without the brackets. -/
def strItemsChars : List String → List Char
  | [] => []
  | [f] => '"' :: (f.data ++ ['"'])
  | f :: g :: t => ('"' :: (f.data ++ ['"'])) ++ (',' :: ' ' :: strItemsChars (g :: t))

theorem strItemsChars_head (g : String) (t : List String) :
    ∃ y, strItemsChars (g :: t) = '"' :: y := by
  cases t with
  | nil => exact ⟨g.data ++ ['"'], rfl⟩
  | cons h2 t2 => exact ⟨(g.data ++ ['"']) ++ (',' :: ' ' :: strItemsChars (h2 :: t2)), rfl⟩

theorem strItemsChars_length (fps : List String) : fps.length ≤ (strItemsChars fps).length := by
  induction fps with
  | nil => simp [strItemsChars]
  | cons f t ih =>
    cases t with
    | nil => simp [strItemsChars]
    | cons g t2 =>
      rw [strItemsChars]
      simp
      simp at ih
      omega

theorem parseItems_succ (fuel : Nat) (cs : List Char) :
    parseItems (fuel + 1) cs =
      (match parseVal fuel cs with
       | none => none
       | some (v, r1) =>
         match skipWs r1 with
         | ',' :: r2 =>
           match parseItems fuel (skipWs r2) with
           | some (xs, r) => some (v :: xs, r)
           | none => none
         | ']' :: r2 => some ([v], r2)
         | _ => none) := rfl

theorem parseVal_succ_lbrack (fuel : Nat) (cs : List Char) :
    parseVal (fuel + 1) ('[' :: cs) =
      (match skipWs cs with
       | c2 :: r2 =>
         if c2 == ']' then some (.arr [], r2)
         else
           match parseItems fuel (skipWs cs) with
           | some (xs, r) => some (.arr xs, r)
           | none => none
       | [] => none) := rfl

theorem parseVal_succ_lbrace (fuel : Nat) (cs : List Char) :
    parseVal (fuel + 1) (Char.ofNat 123 :: cs) =
      (match skipWs cs with
       | c2 :: r2 =>
         if c2 == Char.ofNat 125 then some (.obj [], r2)
         else
           match parseMembers fuel (skipWs cs) with
           | some (kvs, r) => some (.obj (dictify kvs), r)
           | none => none
       | [] => none) := rfl

theorem parseMembers_succ_quote (fuel : Nat) (cs : List Char) :
    parseMembers (fuel + 1) ('"' :: cs) =
      (match parseStrAux [] cs with
       | some (k, r1) =>
         match skipWs r1 with
         | ':' :: r2 =>
           match parseVal fuel (skipWs r2) with
           | some (v, r3) =>
             match skipWs r3 with
             | ',' :: r4 =>
               match parseMembers fuel (skipWs r4) with
               | some (kvs, r) => some ((k, v) :: kvs, r)
               | none => none
             | c5 :: r5 => if c5 == Char.ofNat 125 then some ([(k, v)], r5) else none
             | [] => none
           | none => none
         | _ => none
       | none => none) := rfl

theorem parseItems_strs :
    ∀ (fps : List String) (k : Nat) (rest : List Char), fps ≠ [] →
      (∀ f ∈ fps, plainStr f = true) → fps.length + 1 ≤ k →
      parseItems k (strItemsChars fps ++ (']' :: rest)) = some (fps.map Json.str, rest) := by
  intro fps
  induction fps with
  | nil => intro k rest h; cases h rfl
  | cons f t ih =>
    intro k rest _ hall hk
    simp only [List.length_cons] at hk
    obtain ⟨k1, rfl⟩ : ∃ k1, k = k1 + 1 := ⟨k - 1, by omega⟩
    have hfp : plainStr f = true := hall f (List.mem_cons_self f t)
    cases t with
    | nil =>
      have hsh : strItemsChars [f] ++ (']' :: rest) = '"' :: (f.data ++ ('"' :: (']' :: rest))) := by
        simp [strItemsChars]
      obtain ⟨k2, rfl⟩ : ∃ k2, k1 = k2 + 1 := ⟨k1 - 1, by omega⟩
      rw [hsh, parseItems_succ, parseVal_str k2 f (']' :: rest) hfp]
      simp [@skipWs_not_ws ']' rest (by decide)]
    | cons g t2 =>
      have hsh : strItemsChars (f :: g :: t2) ++ (']' :: rest)
          = '"' :: (f.data ++ ('"' :: (',' :: ' ' :: (strItemsChars (g :: t2) ++ (']' :: rest))))) := by
        rw [strItemsChars]
        simp
      obtain ⟨k2, rfl⟩ : ∃ k2, k1 = k2 + 1 := ⟨k1 - 1, by simp only [List.length_cons] at hk; omega⟩
      rw [hsh, parseItems_succ, parseVal_str k2 f _ hfp]
      obtain ⟨y, hy⟩ := strItemsChars_head g t2
      have hsw1 : skipWs (',' :: ' ' :: (strItemsChars (g :: t2) ++ (']' :: rest)))
          = ',' :: ' ' :: (strItemsChars (g :: t2) ++ (']' :: rest)) :=
        @skipWs_not_ws ',' _ (by decide)
      have hsw2 : skipWs (' ' :: (strItemsChars (g :: t2) ++ (']' :: rest)))
          = strItemsChars (g :: t2) ++ (']' :: rest) := by
        rw [skipWs_space, hy, List.cons_append, skipWs_not_ws _ (by decide), ← List.cons_append]
      have hih := ih (k2 + 1) rest (by simp) (fun x hx => hall x (List.mem_cons_of_mem f hx))
        (by simp only [List.length_cons] at hk ⊢; omega)
      simp [hsw1, hsw2, hih]

theorem parseVal_arr_strs (fps : List String) (k : Nat) (rest : List Char)
    (hall : ∀ f ∈ fps, plainStr f = true) (hk : fps.length + 2 ≤ k) :
    parseVal k ('[' :: (strItemsChars fps ++ (']' :: rest))) = some (.arr (fps.map .str), rest) := by
  obtain ⟨k1, rfl⟩ : ∃ k1, k = k1 + 1 := ⟨k - 1, by omega⟩
  rw [parseVal_succ_lbrack]
  cases fps with
  | nil =>
    rw [show strItemsChars [] ++ (']' :: rest) = ']' :: rest from rfl]
    rw [@skipWs_not_ws ']' rest (by decide)]
    simp
  | cons f t =>
    obtain ⟨y, hy⟩ := strItemsChars_head f t
    have hsw : skipWs ('"' :: (y ++ (']' :: rest))) = '"' :: (y ++ (']' :: rest)) :=
      @skipWs_not_ws '"' _ (by decide)
    have hih : parseItems k1 ('"' :: (y ++ (']' :: rest))) = some (List.map Json.str (f :: t), rest) := by
      rw [← List.cons_append, ← hy]
      exact parseItems_strs (f :: t) k1 rest (by simp) hall
        (by simp only [List.length_cons] at hk ⊢; omega)
    simp [hy, hsw, hih]

theorem skipWs_quote (l : List Char) : skipWs ('"' :: l) = '"' :: l :=
  @skipWs_not_ws '"' l (by decide)

theorem skipWs_colon (l : List Char) : skipWs (':' :: l) = ':' :: l :=
  @skipWs_not_ws ':' l (by decide)

theorem skipWs_comma (l : List Char) : skipWs (',' :: l) = ',' :: l :=
  @skipWs_not_ws ',' l (by decide)

theorem skipWs_lbrack (l : List Char) : skipWs ('[' :: l) = '[' :: l :=
  @skipWs_not_ws '[' l (by decide)

theorem skipWs_rbrace (l : List Char) : skipWs (Char.ofNat 125 :: l) = Char.ofNat 125 :: l :=
  @skipWs_not_ws (Char.ofNat 125) l (by decide)

theorem parseKey_last_dt (rest : List Char) :
    parseStrAux [] ('l' :: 'a' :: 's' :: 't' :: '_' :: 'd' :: 't' :: '"' :: rest)
      = some ("last_dt", rest) := by
  simpa using parseStrAux_plain "last_dt".data [] rest (by decide)

theorem parseKey_seen (rest : List Char) :
    parseStrAux [] ('s' :: 'e' :: 'e' :: 'n' :: '"' :: rest) = some ("seen", rest) := by
  simpa using parseStrAux_plain "seen".data [] rest (by decide)

theorem dictify_state (v1 v2 : Json) :
    dictify [("last_dt", v1), ("seen", v2)] = [("last_dt", v1), ("seen", v2)] := rfl

/-- The persisted state value written at source line 155:
the object with keys `last_dt` and `seen`. -/
def stateJson (d : String) (fps : List String) : Json :=
  .obj [("last_dt", .str d), ("seen", .arr (fps.map .str))]

/-- The exact character sequence `json.dump` produces for a state value. -/
def charsState (d : String) (fps : List String) : List Char :=
  [Char.ofNat 123, '"'] ++ "last_dt".data ++ ['"', ':', ' ', '"'] ++ d.data ++
    ['"', ',', ' ', '"'] ++ "seen".data ++ ['"', ':', ' ', '['] ++
    strItemsChars fps ++ [']', Char.ofNat 125]

theorem parseVal_state (d : String) (fps : List String) (k : Nat)
    (hd : plainStr d = true) (hall : ∀ f ∈ fps, plainStr f = true)
    (hk : fps.length + 5 ≤ k) :
    parseVal k (charsState d fps) = some (stateJson d fps, []) := by
  obtain ⟨a, rfl⟩ : ∃ a, k = a + 1 := ⟨k - 1, by omega⟩
  obtain ⟨b, rfl⟩ : ∃ b, a = b + 1 := ⟨a - 1, by omega⟩
  obtain ⟨c1, rfl⟩ : ∃ c1, b = c1 + 1 := ⟨b - 1, by omega⟩
  have hc1 : fps.length + 2 ≤ c1 := by omega
  have harr := parseVal_arr_strs fps c1 [Char.ofNat 125] hall hc1
  have hstr := parseVal_str c1 d
    (',' :: ' ' :: '"' :: 's' :: 'e' :: 'e' :: 'n' :: '"' :: ':' :: ' ' :: '[' ::
      (strItemsChars fps ++ (']' :: [Char.ofNat 125]))) hd
  simp only [charsState, List.cons_append, List.nil_append, List.append_assoc]
  rw [parseVal_succ_lbrace]
  simp [parseMembers_succ_quote, parseKey_last_dt, parseKey_seen, skipWs_quote, skipWs_colon,
    skipWs_comma, skipWs_space, skipWs_lbrack, skipWs_rbrace, hstr, harr,
    stateJson, dictify_state]

theorem joinChars_strs :
    ∀ fps : List String, (∀ f ∈ fps, plainStr f = true) → fps ≠ [] →
      (joinSep ", " (dumpList (fps.map .str))).data = strItemsChars fps := by
  intro fps
  induction fps with
  | nil => intro _ h; cases h rfl
  | cons f t ih =>
    intro hall _
    have hfp : plainStr f = true := hall f (List.mem_cons_self f t)
    cases t with
    | nil =>
      simp [dumpList, joinSep, strItemsChars, dumpJson, escStr_plain hfp]
    | cons g t2 =>
      have hih := ih (fun x hx => hall x (List.mem_cons_of_mem f hx)) (by simp)
      have hstep : joinSep ", " (dumpList ((f :: g :: t2).map Json.str))
          = dumpJson (Json.str f) ++ ", " ++ joinSep ", " (dumpList ((g :: t2).map Json.str)) :=
        rfl
      rw [hstep, String.data_append, String.data_append, hih]
      rw [show dumpJson (Json.str f) = String.mk ('"' :: (escStr f ++ ['"'])) from rfl]
      rw [escStr_plain hfp, show strItemsChars (f :: g :: t2)
          = ('"' :: (f.data ++ ['"'])) ++ (',' :: ' ' :: strItemsChars (g :: t2)) from rfl]
      simp

theorem data_mk (l : List Char) : (String.mk l).data = l := rfl

theorem arrStrs_data (fps : List String) (hall : ∀ f ∈ fps, plainStr f = true) :
    (dumpJson (.arr (fps.map .str))).data = '[' :: (strItemsChars fps ++ [']']) := by
  cases fps with
  | nil => rfl
  | cons f t =>
    rw [show dumpJson (.arr ((f :: t).map .str))
        = "[" ++ joinSep ", " (dumpList ((f :: t).map .str)) ++ "]" from rfl]
    rw [String.data_append, String.data_append, joinChars_strs (f :: t) hall (by simp)]
    simp

theorem dump_state_data (d : String) (fps : List String)
    (hd : plainStr d = true) (hall : ∀ f ∈ fps, plainStr f = true) :
    (dumpJson (stateJson d fps)).data = charsState d fps := by
  have h1 : dumpJson (stateJson d fps)
      = "\x7b" ++ ((String.mk ('"' :: ("last_dt".data ++ ['"'])) ++ ": "
          ++ String.mk ('"' :: (escStr d ++ ['"']))) ++ ", "
          ++ (String.mk ('"' :: ("seen".data ++ ['"'])) ++ ": "
          ++ dumpJson (.arr (fps.map .str)))) ++ "\x7d" := rfl
  have h2 : dumpJson (.arr (fps.map .str)) = String.mk ('[' :: (strItemsChars fps ++ [']'])) := by
    rw [← arrStrs_data fps hall, mkData]
  have hb1 : ("\x7b" : String).data = [Char.ofNat 123] := by decide
  have hb2 : ("\x7d" : String).data = [Char.ofNat 125] := by decide
  have hcs : (": " : String).data = [':', ' '] := by decide
  have hcm : (", " : String).data = [',', ' '] := by decide
  rw [h1, h2, escStr_plain hd]
  simp only [String.data_append, data_mk, hb1, hb2, hcs, hcm, charsState,
    List.cons_append, List.nil_append, List.append_assoc]

theorem parse_dump_state (d : String) (fps : List String)
    (hd : plainStr d = true) (hall : ∀ f ∈ fps, plainStr f = true) :
    parseJson (dumpJson (stateJson d fps)) = some (stateJson d fps) := by
  have hdata := dump_state_data d fps hd hall
  have hlen : fps.length ≤ (charsState d fps).length := by
    have := strItemsChars_length fps
    simp only [charsState, List.length_append, List.length_cons]
    omega
  have hsw : skipWs (charsState d fps) = charsState d fps := by
    simp only [charsState, List.cons_append]
    exact skipWs_not_ws _ (by decide)
  simp only [parseJson, hdata, hsw]
  rw [parseVal_state d fps _ hd hall (by omega)]
  simp [skipWs]

/-- C9: for a well-formed persisted state — an object holding a `last_dt` string
and a list of fingerprint strings, all made of plain printable characters as
datetime strings and hex digests are — `save(load())` is a fixed point: loading
the dumped state recovers it exactly, and saving what was loaded rewrites the
identical file content.  No data is lost across a save/load cycle. -/
theorem save_load_round_trip (d : String) (fps : List String) (now : Nat)
    (hd : plainStr d = true) (hall : ∀ f ∈ fps, plainStr f = true) :
    load_state (some (save_state (stateJson d fps))) now = stateJson d fps ∧
      save_state (load_state (some (save_state (stateJson d fps))) now) =
        save_state (stateJson d fps) := by
  have h := parse_dump_state d fps hd hall
  refine ⟨?_, ?_⟩
  · simp [load_state, save_state, h]
  · simp [load_state, save_state, h]

/-- Witness for C9 at a concrete well-formed state. -/
theorem save_load_round_trip_witness :
    (plainStr "2024-01-01 00:00:00" = true) ∧
      (∀ f ∈ ["0a1b", "ffee"], plainStr f = true) ∧
      load_state (some (save_state (stateJson "2024-01-01 00:00:00" ["0a1b", "ffee"]))) 777
        = stateJson "2024-01-01 00:00:00" ["0a1b", "ffee"] := by
  refine ⟨by decide, by decide, ?_⟩
  exact (save_load_round_trip "2024-01-01 00:00:00" ["0a1b", "ffee"] 777
    (by decide) (by decide)).1

/-! ### The record fetcher (`fetch_from_hadi`, source lines 92-111)

The HTTP call is an oracle: `none` models a requests exception, a non-2xx
`raise_for_status`, or a JSON decode error — all caught by the bare `except`;
`some data` models a successfully decoded body.  `configOk` models the guard on
`HADI_API_URL`/`HADI_TOKEN`. -/

def isDict : Json → Bool
  | .obj _ => true
  | _ => false

def isList : Json → Bool
  | .arr _ => true
  | _ => false

/-- Python `data.get("status") == "success"`. -/
def isSuccessEnvelope (j : Json) : Bool :=
  match jGet j "status" with
  | some (.str s) => s == "success"
  | _ => false

/-- Python `data.get("data", [])`: the stored value when the key is present
(whatever it is, `null` included), else the default. -/
def jGetD (j : Json) (k : String) (d : Json) : Json := (jGet j k).getD d

/-- Model of `fetch_from_hadi(dt1, dt2)` as a function of the response oracle. -/
def fetch_from_hadi (configOk : Bool) (resp : Option Json) : Json :=
  if !configOk then .arr []
  else
    match resp with
    | none => .arr []
    | some data =>
      if isDict data && isSuccessEnvelope data then jGetD data "data" (.arr [])
      else if isList data then data
      else .arr []

/-- C5 counterexample: a success envelope whose `data` field is not a list is
returned as-is — not normalized to an empty sequence, contradicting "an empty
sequence for any other response shape". -/
theorem fetch_success_nonlist_cex :
    fetch_from_hadi true (some (.obj [("status", .str "success"), ("data", .num "7")]))
      = .num "7" ∧ ∀ xs : List Json, Json.num "7" ≠ .arr xs := by
  refine ⟨rfl, ?_⟩
  intro xs h
  cases h

/-- C5 (amended): missing config, a network/parse failure, a non-success
envelope, and any non-dict non-list response all yield the empty list; a bare
list is returned as-is; a success envelope returns whatever its `data` field
holds — the nested list when it is a list, the empty list when absent, and the
raw value otherwise.  `fetch_from_hadi` is total: no failure propagates. -/
theorem fetch_shapes :
    (∀ resp, fetch_from_hadi false resp = .arr []) ∧
    (fetch_from_hadi true none = .arr []) ∧
    (∀ xs, fetch_from_hadi true (some (.arr xs)) = .arr xs) ∧
    (∀ kvs v, jGet (.obj kvs) "status" = some (.str "success") →
        jGet (.obj kvs) "data" = some v →
        fetch_from_hadi true (some (.obj kvs)) = v) ∧
    (∀ kvs, jGet (.obj kvs) "status" = some (.str "success") →
        jGet (.obj kvs) "data" = none →
        fetch_from_hadi true (some (.obj kvs)) = .arr []) ∧
    (∀ kvs, isSuccessEnvelope (.obj kvs) = false →
        fetch_from_hadi true (some (.obj kvs)) = .arr []) ∧
    (fetch_from_hadi true (some .null) = .arr []) ∧
    (∀ b, fetch_from_hadi true (some (.bool b)) = .arr []) ∧
    (∀ lit, fetch_from_hadi true (some (.num lit)) = .arr []) ∧
    (∀ s, fetch_from_hadi true (some (.str s)) = .arr []) := by
  refine ⟨fun resp => rfl, rfl, fun xs => by simp [fetch_from_hadi, isDict, isList],
    ?_, ?_, ?_, rfl, fun b => rfl, fun lit => rfl, fun s => rfl⟩
  · intro kvs v h1 h2
    simp [fetch_from_hadi, isDict, isSuccessEnvelope, h1, jGetD, h2]
  · intro kvs h1 h2
    simp [fetch_from_hadi, isDict, isSuccessEnvelope, h1, jGetD, h2]
  · intro kvs h1
    simp [fetch_from_hadi, isDict, h1, isList]

/-- Witness for C5 at a concrete success envelope with a nested list. -/
theorem fetch_shapes_witness :
    (jGet (.obj [("status", Json.str "success"), ("data", Json.arr [Json.null])]) "status"
        = some (.str "success")) ∧
      (jGet (.obj [("status", Json.str "success"), ("data", Json.arr [Json.null])]) "data"
        = some (.arr [Json.null])) ∧
      fetch_from_hadi true
          (some (.obj [("status", Json.str "success"), ("data", Json.arr [Json.null])]))
        = .arr [Json.null] := by
  refine ⟨rfl, rfl, ?_⟩
  exact fetch_shapes.2.2.2.1 [("status", Json.str "success"), ("data", Json.arr [Json.null])]
    (.arr [Json.null]) rfl rfl

/-! ### The poll loop (`poller_loop`, source lines 121-159)

The Python `set` named `seen` is modelled as a duplicate-free list in insertion
order; `enum` is the oracle for the implementation-defined iteration order of
`list(seen)` at line 153 (always a permutation of the set's elements).
`deliver` is the oracle for each `send_telegram` call's outcome, indexed by the
number of calls made so far; `send_telegram` swallows its exceptions (lines
65-70), so the outcome never influences the loop state.  `Sent.fp` is a ghost
field recording the processed record's fingerprint, for specification only. -/

/-- One recorded `send_telegram` call (source lines 48-70 and 149). -/
structure Sent where
  number : String
  code : String
  time_str : String
  message : String
  delivered : Bool
  fp : String

structure LoopSt where
  seen : List String
  sent : List Sent

/-- Source line 153: `seen = set(list(seen)[-2000:])`. -/
def trimSeen (enum : List String → List String) (seen : List String) : List String :=
  (enum seen).drop ((enum seen).length - 2000)

/-- The fingerprint the loop computes for a record (source lines 140-141). -/
def fpOf (nowStr : String) (rec : RawRecord) : String :=
  let e := extract_from_record nowStr rec
  hash_record e.2.2.1 e.1 e.2.2.2

/-- Source lines 144-148: format the record timestamp, with the literal
`+0600` fallback for unparseable values. -/
def timeStrOf (dt : String) : String :=
  match parseDT dt with
  | some t => fmtDT t ++ " +0600"
  | none => dt ++ " +0600"

/-- Source lines 139-153: process one fetched record. -/
def procRecord (enum : List String → List String) (deliver : Nat → Bool) (nowStr : String)
    (st : LoopSt) (rec : RawRecord) : LoopSt :=
  let e := extract_from_record nowStr rec
  let num := e.1
  let otp := e.2.1
  let dt := e.2.2.1
  let msg := e.2.2.2
  let h := hash_record dt num msg
  if h ∈ st.seen then st
  else
    let sent1 := st.sent ++ [⟨if num == "" then "Unknown" else num,
      if otp == "" then "" else otp, timeStrOf dt, msg, deliver st.sent.length, h⟩]
    let seen1 := st.seen ++ [h]
    let seen2 := if 5000 < seen1.length then trimSeen enum seen1 else seen1
    ⟨seen2, sent1⟩

def processRecords (enum : List String → List String) (deliver : Nat → Bool) (nowStr : String)
    (st : LoopSt) (recs : List RawRecord) : LoopSt :=
  recs.foldl (procRecord enum deliver nowStr) st

/-- Source line 136 sort key: `r.get("dt", "")`. -/
def dtKey (rec : RawRecord) : String := rec.dt.getD ""

/-- Source line 136: stable sort of the batch by the record timestamp string. -/
def sortRecords (recs : List RawRecord) : List RawRecord :=
  recs.mergeSort (fun a b => decide (dtKey a ≤ dtKey b))

/-- The oracles of one cycle of the `while True` loop: the wall clock read at
line 132, the fetched records, the set-enumeration and delivery oracles, and
`crash = some k` modelling a whole-cycle exception (caught at line 157) that
interrupts processing after `k` records, skipping lines 154-156. -/
structure CycleEnv where
  now : Nat
  records : List RawRecord
  enum : List String → List String
  deliver : Nat → Bool
  crash : Option Nat

/-- One cycle of `poller_loop` (source lines 130-158), returning the new
`last_dt` and the loop state. -/
def runCycle (env : CycleEnv) (last_dt : Nat) (st : LoopSt) : Nat × LoopSt :=
  let sorted := sortRecords env.records
  match env.crash with
  | some k => (last_dt, processRecords env.enum env.deliver (fmtDT env.now) st (sorted.take k))
  | none => (env.now, processRecords env.enum env.deliver (fmtDT env.now) st sorted)

def runCycles (envs : List CycleEnv) (last_dt : Nat) (st : LoopSt) : Nat × LoopSt :=
  match envs with
  | [] => (last_dt, st)
  | e :: es =>
    let r := runCycle e last_dt st
    runCycles es r.1 r.2

/-- The successive values `last_dt` takes, one per cycle. -/
def lastDtTrace : List CycleEnv → Nat → LoopSt → List Nat
  | [], _, _ => []
  | e :: es, ld, st =>
    let r := runCycle e ld st
    r.1 :: lastDtTrace es r.1 r.2

/-- C8: across cycles, `last_dt` is monotonically non-decreasing as long as the
wall clock is (each `now` is at least the initial `last_dt` and the `now`
readings are non-decreasing): a completed cycle sets `last_dt` to the cycle's
window end `now`, and a cycle that fails mid-cycle leaves `last_dt` unchanged —
no cycle ever moves it backward. -/
theorem last_poll_time_monotone :
    ∀ (envs : List CycleEnv) (init : Nat) (st : LoopSt),
      List.Pairwise (· ≤ ·) (init :: envs.map CycleEnv.now) →
      List.Chain' (· ≤ ·) (init :: lastDtTrace envs init st) ∧
        ((∀ e ∈ envs, e.crash = none) →
          lastDtTrace envs init st = envs.map CycleEnv.now) := by
  intro envs
  induction envs with
  | nil =>
    intro init st _
    exact ⟨List.chain'_singleton init, fun _ => rfl⟩
  | cons e es ih =>
    intro init st hp
    rw [List.map_cons, List.pairwise_cons] at hp
    obtain ⟨hinit, hrest⟩ := hp
    have hinow : init ≤ e.now := hinit e.now (List.mem_cons_self _ _)
    rw [List.pairwise_cons] at hrest
    obtain ⟨henow, htail⟩ := hrest
    have hld : (runCycle e init st).1 = e.now ∨ (runCycle e init st).1 = init := by
      rw [runCycle]
      cases e.crash <;> simp
    have hple : List.Pairwise (· ≤ ·) ((runCycle e init st).1 :: es.map CycleEnv.now) := by
      rw [List.pairwise_cons]
      refine ⟨?_, htail⟩
      intro b hb
      rcases hld with h1 | h1
      · rw [h1]; exact henow b hb
      · rw [h1]; exact hinit b (List.mem_cons_of_mem _ hb)
    have hih := ih (runCycle e init st).1 (runCycle e init st).2 hple
    constructor
    · rw [show lastDtTrace (e :: es) init st
          = (runCycle e init st).1
            :: lastDtTrace es (runCycle e init st).1 (runCycle e init st).2 from rfl]
      rw [List.chain'_cons]
      refine ⟨?_, hih.1⟩
      rcases hld with h1 | h1
      · rw [h1]; exact hinow
      · rw [h1]
    · intro hcf
      rw [show lastDtTrace (e :: es) init st
          = (runCycle e init st).1
            :: lastDtTrace es (runCycle e init st).1 (runCycle e init st).2 from rfl]
      have hcrash : e.crash = none := hcf e (List.mem_cons_self _ _)
      have h1 : (runCycle e init st).1 = e.now := by
        rw [runCycle, hcrash]
      rw [h1, List.map_cons]
      rw [(ih e.now (runCycle e init st).2 (by rw [← h1]; exact hple)).2
        (fun x hx => hcf x (List.mem_cons_of_mem _ hx))]

/-- Witness for C8: two concrete crash-free cycles at increasing times. -/
theorem last_poll_time_monotone_witness :
    (List.Pairwise (· ≤ ·)
      (5 :: ([⟨10, [], id, fun _ => true, none⟩,
              ⟨20, [], id, fun _ => true, none⟩] : List CycleEnv).map CycleEnv.now)) ∧
      List.Chain' (· ≤ ·) (5 :: lastDtTrace
        [⟨10, [], id, fun _ => true, none⟩, ⟨20, [], id, fun _ => true, none⟩] 5 ⟨[], []⟩) := by
  constructor
  · simp
  · exact (last_poll_time_monotone
      [⟨10, [], id, fun _ => true, none⟩, ⟨20, [], id, fun _ => true, none⟩] 5 ⟨[], []⟩
      (by simp)).1

theorem fpOf_eq (nowStr : String) (rec : RawRecord) :
    fpOf nowStr rec = hash_record (extract_from_record nowStr rec).2.2.1
      (extract_from_record nowStr rec).1 (extract_from_record nowStr rec).2.2.2 := rfl

/-- Unfolding of one record step in terms of `fpOf`. -/
theorem procRecord_eq (enum : List String → List String) (deliver : Nat → Bool)
    (nowStr : String) (st : LoopSt) (rec : RawRecord) :
    procRecord enum deliver nowStr st rec =
      if fpOf nowStr rec ∈ st.seen then st
      else
        ⟨if 5000 < (st.seen ++ [fpOf nowStr rec]).length
            then trimSeen enum (st.seen ++ [fpOf nowStr rec])
            else st.seen ++ [fpOf nowStr rec],
         st.sent ++ [⟨if (extract_from_record nowStr rec).1 == "" then "Unknown"
             else (extract_from_record nowStr rec).1,
           if (extract_from_record nowStr rec).2.1 == "" then ""
             else (extract_from_record nowStr rec).2.1,
           timeStrOf (extract_from_record nowStr rec).2.2.1,
           (extract_from_record nowStr rec).2.2.2,
           deliver st.sent.length, fpOf nowStr rec⟩]⟩ := rfl

/-- Master lemma: as long as the seen-set stays within its 5000 cap (so no trim
fires), processing a batch appends exactly the distinct new fingerprints to the
seen list, sends exactly one call per appended fingerprint, and every record's
fingerprint ends up in the final seen list. -/
theorem processRecords_no_trim (enum : List String → List String) (deliver : Nat → Bool)
    (nowStr : String) :
    ∀ (recs : List RawRecord) (st : LoopSt),
      st.seen.length + recs.length ≤ 5000 →
      ∃ (newFps : List String) (newSent : List Sent),
        (processRecords enum deliver nowStr st recs).seen = st.seen ++ newFps ∧
        (processRecords enum deliver nowStr st recs).sent = st.sent ++ newSent ∧
        newSent.map Sent.fp = newFps ∧
        newFps.Nodup ∧
        (∀ g ∈ newFps, g ∉ st.seen) ∧
        (∀ r ∈ recs, fpOf nowStr r ∈ st.seen ++ newFps) := by
  intro recs
  induction recs with
  | nil =>
    intro st _
    exact ⟨[], [], by simp [processRecords], by simp [processRecords], rfl, List.nodup_nil,
      by simp, by simp⟩
  | cons r t ih =>
    intro st hbound
    simp only [List.length_cons] at hbound
    have hstep : processRecords enum deliver nowStr st (r :: t)
        = processRecords enum deliver nowStr (procRecord enum deliver nowStr st r) t := rfl
    by_cases hmem : fpOf nowStr r ∈ st.seen
    · have heq : procRecord enum deliver nowStr st r = st := by
        rw [procRecord_eq, if_pos hmem]
      obtain ⟨newFps, newSent, h1, h2, h3, h4, h5, h6⟩ := ih st (by omega)
      refine ⟨newFps, newSent, ?_, ?_, h3, h4, h5, ?_⟩
      · rw [hstep, heq]; exact h1
      · rw [hstep, heq]; exact h2
      · intro x hx
        rcases List.mem_cons.mp hx with hx1 | hx1
        · subst hx1; exact List.mem_append_left _ hmem
        · exact h6 x hx1
    · have heq0 : procRecord enum deliver nowStr st r
          = ⟨st.seen ++ [fpOf nowStr r], st.sent ++
              [⟨if (extract_from_record nowStr r).1 == "" then "Unknown"
                  else (extract_from_record nowStr r).1,
                if (extract_from_record nowStr r).2.1 == "" then ""
                  else (extract_from_record nowStr r).2.1,
                timeStrOf (extract_from_record nowStr r).2.2.1,
                (extract_from_record nowStr r).2.2.2,
                deliver st.sent.length, fpOf nowStr r⟩]⟩ := by
        rw [procRecord_eq, if_neg hmem, if_neg (by simp; omega)]
      obtain ⟨E, hE, hEfp⟩ : ∃ E : Sent, procRecord enum deliver nowStr st r
          = ⟨st.seen ++ [fpOf nowStr r], st.sent ++ [E]⟩ ∧ E.fp = fpOf nowStr r :=
        ⟨_, heq0, rfl⟩
      obtain ⟨newFps, newSent, h1, h2, h3, h4, h5, h6⟩ :=
        ih (procRecord enum deliver nowStr st r) (by rw [hE]; simp; omega)
      have hfpin : fpOf nowStr r ∈ (procRecord enum deliver nowStr st r).seen := by
        rw [hE]
        simp
      refine ⟨fpOf nowStr r :: newFps, E :: newSent, ?_, ?_, ?_, ?_, ?_, ?_⟩
      · rw [hstep, h1, hE]
        simp
      · rw [hstep, h2, hE]
        simp
      · simp [h3, hEfp]
      · exact List.nodup_cons.mpr ⟨fun hc => h5 _ hc hfpin, h4⟩
      · intro g hg
        rcases List.mem_cons.mp hg with hg1 | hg1
        · subst hg1
          exact hmem
        · intro hc
          exact h5 g hg1 (by rw [hE]; exact List.mem_append_left _ hc)
      · intro x hx
        rcases List.mem_cons.mp hx with hx1 | hx1
        · subst hx1
          exact List.mem_append_right _ (List.mem_cons_self _ _)
        · have := h6 x hx1
          rw [hE] at this
          simpa using this

/-- C1 (amended): a record is forwarded to the notifier only if its fingerprint
is not in the seen-set at that moment — forwarded fingerprints are pairwise
distinct and none was initially seen — and, provided the seen-set stays within
its 5000 cap for the whole batch (so no eviction fires between the two), two
records with the same fingerprint produce exactly one notification. -/
theorem dedup_exactly_once (enum : List String → List String) (deliver : Nat → Bool)
    (nowStr : String) (seen : List String) (recs : List RawRecord) (h : String)
    (hbound : seen.length + recs.length ≤ 5000) :
    (∀ g ∈ seen,
      g ∉ ((processRecords enum deliver nowStr ⟨seen, []⟩ recs).sent.map Sent.fp)) ∧
    ((processRecords enum deliver nowStr ⟨seen, []⟩ recs).sent.map Sent.fp).Nodup ∧
    ((∃ r ∈ recs, fpOf nowStr r = h) → h ∉ seen →
      ((processRecords enum deliver nowStr ⟨seen, []⟩ recs).sent.map Sent.fp).count h = 1) := by
  obtain ⟨newFps, newSent, h1, h2, h3, h4, h5, h6⟩ :=
    processRecords_no_trim enum deliver nowStr recs ⟨seen, []⟩ (by simpa using hbound)
  have hsent : (processRecords enum deliver nowStr ⟨seen, []⟩ recs).sent.map Sent.fp
      = newFps := by
    rw [h2]
    simpa using h3
  rw [hsent]
  refine ⟨fun g hg hc => h5 g hc hg, h4, ?_⟩
  intro ⟨r, hr, hfp⟩ hnew
  have : h ∈ newFps := by
    have := h6 r hr
    rw [hfp] at this
    rcases List.mem_append.mp this with hx | hx
    · exact absurd hx hnew
    · exact hx
  exact List.count_eq_one_of_mem h4 this

/-- Witness for C1 at a concrete pair of identical records in one batch. -/
theorem dedup_exactly_once_witness :
    (([] : List String).length
        + ([{ num := some "1", message := some "x" }, { num := some "1", message := some "x" }]
          : List RawRecord).length ≤ 5000) ∧
      (∃ r ∈ ([{ num := some "1", message := some "x" },
               { num := some "1", message := some "x" }] : List RawRecord),
        fpOf "T" r = fpOf "T" { num := some "1", message := some "x" }) ∧
      ((processRecords id (fun _ => true) "T" ⟨[], []⟩
          [{ num := some "1", message := some "x" },
           { num := some "1", message := some "x" }]).sent.map Sent.fp).count
        (fpOf "T" { num := some "1", message := some "x" }) = 1 := by
  refine ⟨by simp, ⟨{ num := some "1", message := some "x" }, List.mem_cons_self _ _, rfl⟩, ?_⟩
  exact (dedup_exactly_once id (fun _ => true) "T" []
    [{ num := some "1", message := some "x" }, { num := some "1", message := some "x" }]
    (fpOf "T" { num := some "1", message := some "x" }) (by simp)).2.2
    ⟨{ num := some "1", message := some "x" }, List.mem_cons_self _ _, rfl⟩
    (List.not_mem_nil _)

set_option maxRecDepth 20000

theorem charOfNat_toNat (n : Nat) (h : n < 55296) : (Char.ofNat n).toNat = n := by
  have hv : Nat.isValidChar n := Or.inl h
  simp [Char.ofNat, hv, Char.ofNatAux, Char.toNat, UInt32.toNat, BitVec.toNat_ofNatLt]

/-- A seen-set filler fingerprint: distinct one-character strings. -/
def fill (n : Nat) : String := String.mk [Char.ofNat (4096 + n)]

/-- A full seen-set of 5000 distinct previously-seen fingerprints. -/
def fills5000 : List String := (List.range 5000).map fill

theorem fill_injOn {x y : Nat} (hx : x < 51200) (hy : y < 51200) (h : fill x = fill y) :
    x = y := by
  have hc : Char.ofNat (4096 + x) = Char.ofNat (4096 + y) := by
    have := congrArg String.data h
    simpa [fill] using this
  have := congrArg Char.toNat hc
  rw [charOfNat_toNat _ (by omega), charOfNat_toNat _ (by omega)] at this
  omega

theorem fills5000_length : fills5000.length = 5000 := by simp [fills5000]

theorem fills5000_nodup : fills5000.Nodup := by
  refine List.Nodup.map_on ?_ (List.nodup_range 5000)
  intro x hx y hy h
  exact fill_injOn (by simp at hx; omega) (by simp at hy; omega) h

theorem len64_notin_fills (s : String) (h : s.length = 64) : s ∉ fills5000 := by
  intro hc
  simp only [fills5000, List.mem_map] at hc
  obtain ⟨n, _, hn⟩ := hc
  rw [← hn] at h
  simp [fill, String.length] at h

/-- The concrete record used in the eviction counterexamples. -/
def Arec : RawRecord := { num := some "111", message := some "hello", dt := some "t0" }

theorem extract_Arec (nowStr : String) :
    extract_from_record nowStr Arec = ("111", "", "t0", "hello") := rfl

/-- The fingerprint of `Arec` (independent of the poll instant: `dt` is set). -/
def hA : String := hash_record "t0" "111" "hello"

theorem fpOf_Arec (nowStr : String) : fpOf nowStr Arec = hA := rfl

theorem hA_notin_fills : hA ∉ fills5000 :=
  len64_notin_fills hA (sha256hex_length _)

theorem hA_notin_drop : hA ∉ List.drop 3000 fills5000.reverse := by
  intro hc
  exact hA_notin_fills (List.mem_reverse.mp (List.mem_of_mem_drop hc))

theorem trim_evicts_hA :
    trimSeen List.reverse (fills5000 ++ [hA]) = List.drop 3000 fills5000.reverse := by
  rw [trimSeen]
  have hrev : (fills5000 ++ [hA]).reverse = hA :: fills5000.reverse := by simp
  rw [hrev]
  have hlen2 : (hA :: fills5000.reverse).length = 5001 := by
    simp [fills5000_length]
  rw [hlen2]
  rw [show (5001 : Nat) - 2000 = 3000 + 1 from rfl]
  rw [List.drop_succ_cons]

theorem procRecord_Arec_evict (deliver : Nat → Bool) (nowStr : String) (s : List Sent) :
    procRecord List.reverse deliver nowStr ⟨fills5000, s⟩ Arec
      = ⟨List.drop 3000 fills5000.reverse,
         s ++ [⟨"111", "", "t0 +0600", "hello", deliver s.length, hA⟩]⟩ := by
  rw [procRecord_eq]
  have hnot : fpOf nowStr Arec ∉ (LoopSt.mk fills5000 s).seen := by
    rw [fpOf_Arec]
    exact hA_notin_fills
  rw [if_neg hnot]
  have hpos : 5000 < ((LoopSt.mk fills5000 s).seen ++ [fpOf nowStr Arec]).length := by
    simp [fills5000_length]
  rw [if_pos hpos]
  have hseen : trimSeen List.reverse ((LoopSt.mk fills5000 s).seen ++ [fpOf nowStr Arec])
      = List.drop 3000 fills5000.reverse := by
    rw [fpOf_Arec]
    exact trim_evicts_hA
  rw [hseen]
  rfl

theorem procRecord_Arec_new (deliver : Nat → Bool) (nowStr : String) (s : List Sent)
    (seen : List String) (hnot : hA ∉ seen) (hlen : seen.length ≤ 4999) :
    procRecord List.reverse deliver nowStr ⟨seen, s⟩ Arec
      = ⟨seen ++ [hA], s ++ [⟨"111", "", "t0 +0600", "hello", deliver s.length, hA⟩]⟩ := by
  rw [procRecord_eq]
  have hnot2 : fpOf nowStr Arec ∉ (LoopSt.mk seen s).seen := by
    rw [fpOf_Arec]
    exact hnot
  rw [if_neg hnot2]
  have hlen2 : ¬ (5000 < ((LoopSt.mk seen s).seen ++ [fpOf nowStr Arec]).length) := by
    simp only [List.length_append, List.length_cons, List.length_nil]
    omega
  rw [if_neg hlen2]
  rw [fpOf_Arec]
  rfl

theorem drop_fills_length : (List.drop 3000 fills5000.reverse).length = 2000 := by
  simp [List.length_drop, List.length_reverse, fills5000_length]

/-- C1 counterexample: feeding the same record twice through one cycle of the
loop, starting from a full (5000-entry) seen-set and the reverse set-enumeration
order, yields TWO notifications: the first add exceeds 5000, the trim evicts the
just-added fingerprint, and the duplicate is no longer filtered. -/
theorem dedup_twice_after_eviction_cex :
    ((processRecords List.reverse (fun _ => true) "T" ⟨fills5000, []⟩ [Arec, Arec]).sent.map
      Sent.fp).count hA = 2 := by
  simp only [processRecords, List.foldl]
  rw [procRecord_Arec_evict]
  rw [procRecord_Arec_new (fun _ => true) "T" _ _ hA_notin_drop
    (by rw [drop_fills_length]; omega)]
  simp

theorem sortRecords_single (r : RawRecord) : sortRecords [r] = [r] := by
  simp [sortRecords]

/-- C3 counterexample: a record whose delivery FAILS in cycle one is re-notified
in cycle two after the eviction drops its fingerprint — so "never re-notified on
a later cycle" does not hold once the seen-set overflows its cap. -/
theorem renotified_after_eviction_cex :
    ((runCycles
        [⟨100, [Arec], List.reverse, fun _ => false, none⟩,
         ⟨200, [Arec], List.reverse, fun _ => true, none⟩] 0 ⟨fills5000, []⟩).2.sent.map
      Sent.fp).count hA = 2 ∧
      ∃ e ∈ (runCycles
          [⟨100, [Arec], List.reverse, fun _ => false, none⟩,
           ⟨200, [Arec], List.reverse, fun _ => true, none⟩] 0 ⟨fills5000, []⟩).2.sent,
        e.delivered = false ∧ e.fp = hA := by
  simp only [runCycles, runCycle, sortRecords_single, processRecords, List.foldl]
  rw [procRecord_Arec_evict]
  rw [procRecord_Arec_new (fun _ => true) (fmtDT 200) _ _ hA_notin_drop
    (by rw [drop_fills_length]; omega)]
  constructor
  · simp
  · refine ⟨⟨"111", "", "t0 +0600", "hello", false, hA⟩, ?_, rfl, rfl⟩
    simp

/-- The notifier payload of a call, without the delivery outcome. -/
def sentCore (e : Sent) : String × String × String × String × String :=
  (e.number, e.code, e.time_str, e.message, e.fp)

theorem processRecords_deliver_indep (enum : List String → List String) (nowStr : String)
    (d1 d2 : Nat → Bool) :
    ∀ (recs : List RawRecord) (st1 st2 : LoopSt),
      st1.seen = st2.seen → st1.sent.length = st2.sent.length →
      st1.sent.map sentCore = st2.sent.map sentCore →
      (processRecords enum d1 nowStr st1 recs).seen
        = (processRecords enum d2 nowStr st2 recs).seen ∧
      (processRecords enum d1 nowStr st1 recs).sent.map sentCore
        = (processRecords enum d2 nowStr st2 recs).sent.map sentCore := by
  intro recs
  induction recs with
  | nil =>
    intro st1 st2 h1 _ h3
    simpa [processRecords] using ⟨h1, h3⟩
  | cons r t ih =>
    intro st1 st2 h1 h2 h3
    have hstep1 : processRecords enum d1 nowStr st1 (r :: t)
        = processRecords enum d1 nowStr (procRecord enum d1 nowStr st1 r) t := rfl
    have hstep2 : processRecords enum d2 nowStr st2 (r :: t)
        = processRecords enum d2 nowStr (procRecord enum d2 nowStr st2 r) t := rfl
    rw [hstep1, hstep2]
    by_cases hmem : fpOf nowStr r ∈ st1.seen
    · have hmem2 : fpOf nowStr r ∈ st2.seen := h1 ▸ hmem
      rw [procRecord_eq, procRecord_eq, if_pos hmem, if_pos hmem2]
      exact ih st1 st2 h1 h2 h3
    · have hmem2 : fpOf nowStr r ∉ st2.seen := h1 ▸ hmem
      rw [procRecord_eq, procRecord_eq, if_neg hmem, if_neg hmem2]
      apply ih
      · simp [h1]
      · simp [h2]
      · simp [sentCore, h3, h2]

/-- C3 (amended): for every record whose fingerprint is new, the notifier is
invoked exactly once in the batch (at most one attempt per fingerprint) and the
fingerprint is marked seen regardless of the delivery outcome: the resulting
seen-set and the notifier payloads are identical under any two delivery-outcome
oracles (failures are swallowed, never halt the loop, and are not retried), so
— as long as the fingerprint is not evicted later — the record is not
re-notified. -/
theorem delivery_failure_no_retry (enum : List String → List String) (d1 d2 : Nat → Bool)
    (nowStr : String) (seen : List String) (recs : List RawRecord)
    (hbound : seen.length + recs.length ≤ 5000) :
    ((processRecords enum d1 nowStr ⟨seen, []⟩ recs).seen
      = (processRecords enum d2 nowStr ⟨seen, []⟩ recs).seen) ∧
    ((processRecords enum d1 nowStr ⟨seen, []⟩ recs).sent.map sentCore
      = (processRecords enum d2 nowStr ⟨seen, []⟩ recs).sent.map sentCore) ∧
    (∀ r ∈ recs, fpOf nowStr r ∈ (processRecords enum d1 nowStr ⟨seen, []⟩ recs).seen) ∧
    (∀ h : String,
      ((processRecords enum d1 nowStr ⟨seen, []⟩ recs).sent.map Sent.fp).count h ≤ 1) := by
  obtain ⟨hseen, hsent⟩ :=
    processRecords_deliver_indep enum nowStr d1 d2 recs ⟨seen, []⟩ ⟨seen, []⟩ rfl rfl rfl
  obtain ⟨newFps, newSent, h1, h2, h3, h4, h5, h6⟩ :=
    processRecords_no_trim enum d1 nowStr recs ⟨seen, []⟩ (by simpa using hbound)
  refine ⟨hseen, hsent, ?_, ?_⟩
  · intro r hr
    rw [h1]
    exact h6 r hr
  · intro x
    have hmap : (processRecords enum d1 nowStr ⟨seen, []⟩ recs).sent.map Sent.fp = newFps := by
      rw [h2]
      simpa using h3
    rw [hmap]
    exact List.nodup_iff_count_le_one.mp h4 x

/-- Witness for C3 at a concrete record under failing vs succeeding delivery. -/
theorem delivery_failure_no_retry_witness :
    (([] : List String).length + ([Arec] : List RawRecord).length ≤ 5000) ∧
      ((processRecords id (fun _ => false) "T" ⟨[], []⟩ [Arec]).seen
        = (processRecords id (fun _ => true) "T" ⟨[], []⟩ [Arec]).seen) ∧
      (∀ r ∈ ([Arec] : List RawRecord),
        fpOf "T" r ∈ (processRecords id (fun _ => false) "T" ⟨[], []⟩ [Arec]).seen) := by
  refine ⟨by simp, ?_, ?_⟩
  · exact (delivery_failure_no_retry id (fun _ => false) (fun _ => true) "T" [] [Arec]
      (by simp)).1
  · exact (delivery_failure_no_retry id (fun _ => false) (fun _ => true) "T" [] [Arec]
      (by simp)).2.2.1

theorem fillsN_nodup (n : Nat) (h : n ≤ 51200) : ((List.range n).map fill).Nodup := by
  refine List.Nodup.map_on ?_ (List.nodup_range n)
  intro x hx y hy
  exact fill_injOn (by simp at hx; omega) (by simp at hy; omega)

theorem seen_mk (a : List String) (b : List Sent) : (LoopSt.mk a b).seen = a := rfl

theorem procRecord_seen_cap (enum : List String → List String) (deliver : Nat → Bool)
    (nowStr : String) (st : LoopSt) (rec : RawRecord) (hst : st.seen.length ≤ 5000) :
    (procRecord enum deliver nowStr st rec).seen.length ≤ 5000 := by
  rw [procRecord_eq]
  by_cases hmem : fpOf nowStr rec ∈ st.seen
  · rw [if_pos hmem]
    exact hst
  · rw [if_neg hmem, seen_mk]
    by_cases hbig : 5000 < (st.seen ++ [fpOf nowStr rec]).length
    · rw [if_pos hbig, trimSeen, List.length_drop]
      omega
    · rw [if_neg hbig]
      simp only [List.length_append, List.length_cons, List.length_nil] at hbig ⊢
      omega

/-- C2 (amended): when an insertion makes the seen-set exceed 5000 entries, it
is immediately trimmed to exactly 2000 entries, each drawn from the
pre-eviction set, and a per-record step never leaves the set above 5000; but
WHICH 2000 survive follows the implementation-defined set enumeration order —
it is the most-recently-added 2000 only under an insertion-ordered enumeration,
and eviction may drop any fingerprint, including one whose record has not yet
been processed in the current cycle. -/
theorem seen_eviction (enum : List String → List String) (seen : List String)
    (henum : ∀ s : List String, (enum s).Perm s) (hnodup : seen.Nodup)
    (hlen : 5000 < seen.length) :
    (trimSeen enum seen).length = 2000 ∧ (trimSeen enum seen).Nodup ∧
      (∀ g ∈ trimSeen enum seen, g ∈ seen) ∧
      (∀ (deliver : Nat → Bool) (nowStr : String) (st : LoopSt) (rec : RawRecord),
        st.seen.length ≤ 5000 →
        (procRecord enum deliver nowStr st rec).seen.length ≤ 5000) := by
  have hplen : (enum seen).length = seen.length := (henum seen).length_eq
  refine ⟨?_, ?_, ?_, ?_⟩
  · rw [trimSeen, List.length_drop, hplen]
    omega
  · exact List.Sublist.nodup (List.drop_sublist _ _) (((henum seen).nodup_iff).mpr hnodup)
  · intro g hg
    exact (henum seen).subset (List.drop_subset _ _ hg)
  · intro deliver nowStr st rec hst
    exact procRecord_seen_cap enum deliver nowStr st rec hst

/-- Witness for C2 at a concrete overflowing seen-set with reverse enumeration. -/
theorem seen_eviction_witness :
    (∀ s : List String, (List.reverse s).Perm s) ∧
      ((List.range 5001).map fill).Nodup ∧
      (5000 < ((List.range 5001).map fill).length) ∧
      (trimSeen List.reverse ((List.range 5001).map fill)).length = 2000 := by
  refine ⟨fun s => List.reverse_perm s, fillsN_nodup 5001 (by omega), by simp, ?_⟩
  exact (seen_eviction List.reverse ((List.range 5001).map fill)
    (fun s => List.reverse_perm s) (fillsN_nodup 5001 (by omega)) (by simp)).1

/-- C2 counterexample: with 5001 entries and reverse enumeration, the trimmed
set is NOT the most-recently-added 2000: the newest entry `"q"` is among the
most-recently-added 2000 but is evicted. -/
theorem eviction_not_most_recent_cex :
    (fills5000 ++ ["q"]).length = 5001 ∧
      "q" ∈ (fills5000 ++ ["q"]).drop 3001 ∧
      "q" ∉ trimSeen List.reverse (fills5000 ++ ["q"]) := by
  have hq : "q" ∉ fills5000 := by
    intro hc
    simp only [fills5000, List.mem_map] at hc
    obtain ⟨n, hn, he⟩ := hc
    have hd : (fill n).data = ("q" : String).data := congrArg String.data he
    simp only [fill] at hd
    have hch : Char.ofNat (4096 + n) = 'q' := by
      have := congrArg (fun l => l.headD ' ') hd
      simpa using this
    have := congrArg Char.toNat hch
    rw [charOfNat_toNat (4096 + n) (by simp at hn; omega)] at this
    simp [Char.toNat] at this
    rw [show (113 : Nat) % UInt32.size = 113 from rfl] at this
    omega
  refine ⟨by simp [fills5000_length], ?_, ?_⟩
  · rw [List.drop_append_eq_append_drop]
    apply List.mem_append_right
    rw [fills5000_length]
    simp
  · intro hc
    rw [trimSeen] at hc
    have hrev : (fills5000 ++ ["q"]).reverse = "q" :: fills5000.reverse := by simp
    rw [hrev] at hc
    have hlen2 : ("q" :: fills5000.reverse).length = 5001 := by
      simp [fills5000_length]
    rw [hlen2, show (5001 : Nat) - 2000 = 3000 + 1 from rfl, List.drop_succ_cons] at hc
    exact hq (List.mem_reverse.mp (List.mem_of_mem_drop hc))
